import Mathlib

/-!
# cTraderPlugin: day file decoder and backward series resampler

A shallow embedding of `src/cTraderPlugin.cpp` (`ReadCTraderDayV2`, `BrokerLogin`,
`BrokerHistory2`) and theorems about it.

Conventions of the embedding

* A byte is a natural number read modulo 256; `uint64_t` values are natural numbers
  below `2 ^ 64`, `uint32_t` values are taken modulo `2 ^ 32`.
* An operation whose behaviour the C++ language leaves undefined (an access past the end
  of a `std::vector`, a division by zero) ends the run with a `Fault`.
* The caller's buffer `Ticks` is a memory of slots without an end: the model records
  every slot written (field `written`), also past the capacity `NTicks` announces.
* Loops are run with an iteration budget; `Run.timeout` says the budget ran out.
* The `int` counters `tickCount`, `mTickVolume` and `mCurrentTickNdx` are integers without
  wrap-around; the product `TickMinutes * 60000` and `epocMinutes` are reduced to 32 bits,
  the difference `ask - bid` of the raw tick branch to 64 bits.
* A `DATE` is kept as its exact number of milliseconds, a `float` price as an exact
  multiple of `tickSize`; the rounding of `double` and `float` is not modelled.
* The file system and zlib are outside the program: a day file is given by what
  `std::filesystem::exists`, the `std::ifstream` constructor and `inflate` make of it.
-/

namespace CTraderPlugin

/-! ## Outcomes -/

/-- The operations of the source that have undefined behaviour in C++. -/
inductive Fault where
  /-- A read through a pointer or index past the end of a buffer. -/
  | readPastEnd
  /-- A write through an index past the end of a vector. -/
  | writePastEnd
  /-- An integer division by zero. -/
  | divideByZero
deriving DecidableEq, Repr

/-- How a run of a piece of code ends. -/
inductive Run (α : Type) where
  /-- The code returns normally. -/
  | ok (a : α)
  /-- The code executes an operation with undefined behaviour. -/
  | fault (f : Fault)
  /-- The iteration budget given to the model ran out before the code returned. -/
  | timeout
deriving DecidableEq, Repr

/-- Sequencing of runs: the first fault or timeout ends the run. -/
def Run.bind {α β : Type} (r : Run α) (f : α → Run β) : Run β :=
  match r with
  | .ok a => f a
  | .fault e => .fault e
  | .timeout => .timeout

instance : Monad Run where
  pure := Run.ok
  bind := Run.bind

/-! ## Data model -/

/-- The struct `SerialArrays`: three `std::vector<uint64_t>`. -/
structure SerialArrays where
  Tick2dt : List Nat
  Tick2Bid : List Nat
  Tick2Ask : List Nat
deriving DecidableEq, Repr

/-- What the environment makes of the file `<symbolFile>\<dateString>.zticks`. -/
inductive DayFile where
  /-- The call `std::filesystem::exists(fileName)` is false. -/
  | absent
  /-- The file exists and the `std::ifstream` fails to open it. -/
  | unreadable
  /-- The call `inflate(&strm, Z_FINISH)` does not return `Z_STREAM_END`. -/
  | corrupt
  /-- The call `inflate` returns `Z_STREAM_END`; the bytes are `decompressedData` after
  `decompressedData.resize(strm.total_out)`. -/
  | inflated (decompressedData : List Nat)
deriving DecidableEq, Repr

/-! ## ReadCTraderDayV2 -/

/-- Value of a little-endian byte string. -/
def leValue : List Nat → Nat
  | [] => 0
  | b :: bs => b % 256 + 256 * leValue bs

/-- The read `*reinterpret_cast<int64_t*>(&decompressedData[sourceNdx])`, as the
`uint64_t` it is converted to: the eight bytes from `sourceNdx` on. -/
def readInt64 (decompressedData : List Nat) (sourceNdx : Nat) : Run Nat :=
  if sourceNdx + 8 ≤ decompressedData.length then
    .ok (leValue ((decompressedData.drop sourceNdx).take 8))
  else
    .fault .readPastEnd

/-- The read `v[i]` of a vector. -/
def vecGet (v : List Nat) (i : Nat) : Run Nat :=
  match v[i]? with
  | some x => .ok x
  | none => .fault .readPastEnd

/-- The write `v[i] = x` of a vector. -/
def vecSet (v : List Nat) (i : Nat) (x : Nat) : Run (List Nat) :=
  if i < v.length then .ok (v.set i x) else .fault .writePastEnd

/-- The call `v.resize(n)`: keeps the first `n` elements, pads with zeros. -/
def resize (v : List Nat) (n : Nat) : List Nat :=
  v.take n ++ List.replicate (n - v.length) 0

/-- One iteration of the parse loop of `ReadCTraderDayV2` (lines 133-141), at
`sourceNdx` and `targetNdx`. -/
def parseRecord (decompressedData : List Nat) (sourceNdx targetNdx : Nat)
    (m : SerialArrays) : Run SerialArrays := do
  let dt ← readInt64 decompressedData sourceNdx
  let Tick2dt ← vecSet m.Tick2dt targetNdx dt
  let bid := (← readInt64 decompressedData (sourceNdx + 8)) % 2 ^ 32
  let ask := (← readInt64 decompressedData (sourceNdx + 16)) % 2 ^ 32
  let newBid ←
    if bid = 0 then
      (if targetNdx = 0 then pure ask else vecGet m.Tick2Bid (targetNdx - 1))
    else pure bid
  let Tick2Bid ← vecSet m.Tick2Bid targetNdx newBid
  let newAsk ←
    if ask = 0 then
      (if targetNdx = 0 then pure bid else vecGet m.Tick2Ask (targetNdx - 1))
    else pure ask
  let Tick2Ask ← vecSet m.Tick2Ask targetNdx newAsk
  pure { Tick2dt := Tick2dt, Tick2Bid := Tick2Bid, Tick2Ask := Tick2Ask }

/-- The parse loop `for (sourceNdx = 0, targetNdx = 0; sourceNdx < size; targetNdx++)`
with an iteration budget. -/
def parseLoop (decompressedData : List Nat) :
    Nat → Nat → Nat → SerialArrays → Run SerialArrays
  | 0, _, _, _ => .timeout
  | fuel + 1, sourceNdx, targetNdx, m =>
    if sourceNdx < decompressedData.length then
      match parseRecord decompressedData sourceNdx targetNdx m with
      | .ok m1 => parseLoop decompressedData fuel (sourceNdx + 24) (targetNdx + 1) m1
      | .fault f => .fault f
      | .timeout => .timeout
    else
      .ok m

/-- The function `ReadCTraderDayV2`, on the global `mSerialArrays`: the returned string
(empty on success; the messages are given without the file name) and the arrays after the
call. The parse loop gets a budget of `size + 1` iterations, more than it can use. -/
def ReadCTraderDayV2 (file : DayFile) (mSerialArrays : SerialArrays) :
    Run (String × SerialArrays) :=
  match file with
  | .absent => .ok ("Tickdata file not found", mSerialArrays)
  | .unreadable => .ok ("Error opening file", mSerialArrays)
  | .corrupt => .ok ("Decompresson error", mSerialArrays)
  | .inflated decompressedData =>
    let n := decompressedData.length / 24
    let m : SerialArrays :=
      { Tick2dt := resize mSerialArrays.Tick2dt n
        Tick2Bid := resize mSerialArrays.Tick2Bid n
        Tick2Ask := resize mSerialArrays.Tick2Ask n }
    match parseLoop decompressedData (decompressedData.length + 1) 0 0 m with
    | .ok m1 => .ok ("", m1)
    | .fault f => .fault f
    | .timeout => .timeout

/-! ## BrokerLogin and BrokerHistory2 -/

/-! A `DATE` of the source (days since 30 December 1899, a `double`) is kept as its exact
number of milliseconds: the `DATE` value `d` is the integer `d * 86400000`. The parameters
`Start`, `End`, `endRun`, `dt` and the field `time` are such integers. Where the function
compares a tick time with `Start`, the two `double`s that these integers stand for are
compared (see `tickDate` and `startDate` below). -/

/-- Milliseconds per day, the constant `86400000.0` of the source. -/
def msPerDay : Int := 86400000

/-- Modelled from the spec: the struct `T6` of `zorro.h`, which is not among the sources
(the spec's OutputBar): close timestamp, open/high/low/close price, a spread proxy value
and a volume counter. The `float` prices are kept as exact multiples of `tickSize`: the
field holds the integer `p` for the price `p * tickSize`. -/
structure T6 where
  time : Int
  fHigh : Int
  fLow : Int
  fOpen : Int
  fClose : Int
  fVal : Int
  fVol : Int
deriving DecidableEq, Repr

/-! The test `Ticks->time <= Start` (lines 246 and 271) compares two `double`s, and the
`double` that line 229 computes for a tick is not always the `double` nearest to its exact
time. For this test the `double`s are computed as the machine does, each operation rounded
to the nearest `double`, ties to even. A `double` `x` is held as the integer `x * 2 ^ 79`:
every value that arises is 0 or at least `1 / 86400000` in magnitude, so that its 53
significant binary digits lie at or above `2 ^ -79`; timestamps are below `2 ^ 64` and
`Start` is taken within the range of a `double`, so that no operation overflows. -/

/-- One step of the count of binary digits: `w` digits are cut off the number `p.1` and
added to the count `p.2` when the number has more than `w` digits. -/
def bitStep (w : Nat) (p : Nat × Nat) : Nat × Nat :=
  if 2 ^ w ≤ p.1 then (p.1 / 2 ^ w, p.2 + w) else p

/-- The number of binary digits of `n`, by steps of 128 digits down to one (`fuel` bounds
the number of steps of 256 digits). -/
def bitLength : Nat → Nat → Nat
  | 0, _ => 0
  | fuel + 1, n =>
    if 2 ^ 256 ≤ n then 256 + bitLength fuel (n / 2 ^ 256)
    else
      let p := bitStep 1 (bitStep 2 (bitStep 4 (bitStep 8 (bitStep 16 (bitStep 32
        (bitStep 64 (bitStep 128 (n, 0))))))))
      p.2 + p.1

/-- The `double` nearest to the quotient `a / q` (ties to even), both read in units of
`2 ^ -79`: the quotient is cut to its 53 leading binary digits and rounded on the rest. -/
def roundDouble (a q : Nat) : Nat :=
  let shift := bitLength (a / q) (a / q) - 53
  let b := q * 2 ^ shift
  let m := a / b
  let r := a % b
  (if b < 2 * r ∨ (2 * r = b ∧ m % 2 = 1) then m + 1 else m) * 2 ^ shift

/-- The value of `DATE dt = 25569.0 + Tick2dt[mCurrentTickNdx] / 86400000.0` (line 229)
for the timestamp `ts`, as a `double` in units of `2 ^ -79` day: the conversion of the
`uint64_t` to `double`, the division and the addition, each rounded. -/
def tickDate (ts : Nat) : Int :=
  roundDouble (25569 * 2 ^ 79 + roundDouble (roundDouble (ts * 2 ^ 79) 1) 86400000) 1

/-- The `double` that the caller passes for a `DATE` of `d` milliseconds: the one nearest
to `d / 86400000` days, in units of `2 ^ -79` day. -/
def startDate (d : Int) : Int :=
  if d < 0 then -(roundDouble (d.natAbs * 2 ^ 79) 86400000 : Int)
  else (roundDouble (d.natAbs * 2 ^ 79) 86400000 : Int)

/-- The `double` that line 229 computed for a tick whose exact time is `time`
milliseconds. -/
def dateOf (time : Int) : Int := tickDate (time - 25569 * msPerDay).toNat

/-- The `double` held in the field `time`, which the function writes with `dt` only. -/
def T6.date (t : T6) : Int := dateOf t.time

/-- The member variables of the plugin (lines 71-80). -/
structure Globals where
  mIs1stAfterBrokerLogin : Bool
  mCurrentTickNdx : Int
  mTickVolume : Int
  mPrevMinutes : Int
  mCachePath : String
  mSerialArrays : SerialArrays
deriving DecidableEq, Repr

/-- The file system as the plugin sees it: the directory `symbolFile` and the day number
`floor(endRun)` (which `strdate("%Y%m%d", endRun)` prints) select a day file. -/
abbrev FileSystem := String → Int → DayFile

/-- Conversion to `int`: reduction modulo `2 ^ 32` into the signed range. -/
def toInt32 (x : Int) : Int := (x + 2 ^ 31) % 2 ^ 32 - 2 ^ 31

/-- The constant `0x7fffffff`. -/
def INT_MAX : Int := 0x7fffffff

/-- The read `v[i]` of a vector with an `int` index. -/
def vecAt (v : List Nat) (i : Int) : Run Nat :=
  if 0 ≤ i then vecGet v i.toNat else .fault .readPastEnd

/-- The function `BrokerLogin`; `User = none` is the null pointer of a logout.
`APPDATA` is the environment variable, `isDirectory` is `std::filesystem::is_directory`. -/
def BrokerLogin (APPDATA : String) (isDirectory : String → Bool)
    (User : Option String) (Password : String) (g : Globals) : Int × Globals :=
  match User with
  | none => (1, g)
  | some user =>
    let mCachePath :=
      APPDATA ++ "\\Spotware\\Cache\\" ++ user ++ "\\BacktestingCache\\V1\\" ++ Password
    let g1 := { g with
      mCachePath := mCachePath
      mCurrentTickNdx := -1
      mPrevMinutes := 0
      mIs1stAfterBrokerLogin := true }
    (if isDirectory mCachePath then 1 else 0, g1)

/-- The divisor `TickMinutes * 60000` of line 255: a product of `int`s, converted to
`uint64_t` for the division. -/
def bucketDivisor (TickMinutes : Int) : Nat :=
  (toInt32 (TickMinutes * 60000) % 2 ^ 64).toNat

/-- The value of `int epocMinutes = Tick2dt[mCurrentTickNdx] / (TickMinutes * 60000)` for
the timestamp `ts`, when the divisor is not zero. -/
def epocMinutesOf (TickMinutes : Int) (ts : Nat) : Int :=
  toInt32 ((ts / bucketDivisor TickMinutes : Nat) : Int)

/-- The day search of `BrokerHistory2` (lines 209-219), from `endRun` down, with an
iteration budget. -/
def daySearch (fs : FileSystem) (Symbol : String) (Start : Int) :
    Nat → Int → Globals → Run Globals
  | 0, _, _ => .timeout
  | fuel + 1, endRun, g =>
    if endRun ≥ Start - 10 * msPerDay then
      match ReadCTraderDayV2 (fs (g.mCachePath ++ "\\" ++ Symbol ++ "\\t1") (endRun / msPerDay))
          g.mSerialArrays with
      | .ok (error, m) =>
        if "" = error then
          .ok { g with mSerialArrays := m, mCurrentTickNdx := (m.Tick2dt.length : Int) - 1 }
        else
          daySearch fs Symbol Start fuel (endRun - msPerDay) { g with mSerialArrays := m }
      | .fault f => .fault f
      | .timeout => .timeout
    else
      .ok g

/-- A budget that the day search cannot use up: the number of days from `endRun` down to
`Start - 10`, and two more passes. -/
def daySearchBudget (Start endRun : Int) : Nat :=
  ((endRun - (Start - 10 * msPerDay)) / msPerDay).toNat + 2

/-- The state of one call of `BrokerHistory2`: the member variables, the local
`tickCount`, the pointer `Ticks` as its offset from the start of the caller's buffer, the
caller's memory `buf` by slot, and the slots written so far (latest first). -/
structure Frame where
  g : Globals
  tickCount : Int
  Ticks : Nat
  buf : Nat → T6
  written : List Nat

/-- A write through the pointer `Ticks`. -/
def Frame.store (s : Frame) (f : T6 → T6) : Frame :=
  { s with
    buf := Function.update s.buf s.Ticks (f (s.buf s.Ticks))
    written := s.Ticks :: s.written }

/-- How one pass through the body of the `for (;; mCurrentTickNdx--)` loop ends. -/
inductive Flow where
  /-- The end of the body is reached: the loop decrements `mCurrentTickNdx` and goes on. -/
  | next (s : Frame)
  /-- The function returns `n` (a `return` or a `break`). -/
  | ret (n : Int) (s : Frame)

/-- The reload of a day when the cursor has run out (lines 207-219). -/
def reloadDay (fs : FileSystem) (Symbol : String) (Start End : Int) (g : Globals) :
    Run Globals :=
  if g.mCurrentTickNdx < 0 then
    let endRun := if g.mIs1stAfterBrokerLogin then End else End - msPerDay
    daySearch fs Symbol Start (daySearchBudget Start endRun) endRun g
  else .ok g

/-- The raw tick branch (lines 240-249) for the tick read at the cursor: time `dt`,
prices `ask` and `bid`. -/
def rawTick (Start : Int) (NTicks : Int) (dt : Int) (ask bid : Nat) (s : Frame) : Flow :=
  let s := s.store fun t => { t with time := dt }
  let s := s.store fun t => { t with fOpen := ask, fHigh := ask, fLow := ask, fClose := ask }
  -- the difference is taken in uint64_t
  let s := s.store fun t => { t with fVal := ((ask : Int) - bid) % 2 ^ 64 }
  let s := s.store fun t => { t with fVol := 1 }
  -- done if NTicks ticks read OR if last tick read is < Start
  let s := { s with tickCount := s.tickCount + 1 }
  if s.tickCount ≥ NTicks ∨ (s.buf s.Ticks).date ≤ startDate Start then
    .ret s.tickCount s
  else
    .next { s with Ticks := s.Ticks + 1 }

/-- The statements under `// build bar backward` (lines 276-282). -/
def barBuild (epocMinutes ask bid : Int) (s : Frame) : Frame :=
  let s := s.store fun t => { t with fHigh := max t.fHigh ask }
  let s := s.store fun t => { t with fLow := min t.fLow ask }
  let s := s.store fun t => { t with fOpen := ask }
  let s := s.store fun t => { t with fVal := ask - bid }
  let s := { s with g := { s.g with mTickVolume := s.g.mTickVolume + 1 } }
  let s := s.store fun t => { t with fVol := s.g.mTickVolume }
  { s with g := { s.g with mPrevMinutes := epocMinutes } }

/-- The statements under `// init bar with close time and close price` (lines 267-269). -/
def barInit (dt : Int) (ask : Int) (s : Frame) : Frame :=
  let s := s.store fun t => { t with time := dt }
  let s := s.store fun t => { t with fOpen := ask, fClose := ask, fHigh := ask, fLow := ask }
  let s := s.store fun t => { t with fVol := 0 }
  { s with g := { s.g with mTickVolume := 0 } }

/-- The statement `if (0x7fffffff != mPrevMinutes) { Ticks++; tickCount++; }` (lines
260-264): do not inc Ticks and tickCount 1st time after call to BrokerHistory2. -/
def barAdvance (s : Frame) : Frame :=
  if INT_MAX ≠ s.g.mPrevMinutes then
    { s with Ticks := s.Ticks + 1, tickCount := s.tickCount + 1 }
  else s

/-- The bar branch (lines 258-282) for the tick read at the cursor: time `dt`, bucket
`epocMinutes`, prices `ask` and `bid` as multiples of `tickSize`. -/
def barTick (Start : Int) (NTicks : Int) (dt : Int) (epocMinutes ask bid : Int)
    (s : Frame) : Flow :=
  if epocMinutes < s.g.mPrevMinutes then
    let s := barInit dt ask (barAdvance s)
    if s.tickCount ≥ NTicks ∨ (s.buf s.Ticks).date ≤ startDate Start then
      .ret s.tickCount s
    else
      .next (barBuild epocMinutes ask bid s)
  else
    .next (barBuild epocMinutes ask bid s)

/-- The body of the loop once a day is loaded or the search has given up (lines
221-283). -/
def historyTick (Start : Int) (TickMinutes NTicks : Int) (s : Frame) : Run Flow :=
  -- first run done after broker login done
  let s := { s with g := { s.g with mIs1stAfterBrokerLogin := false } }
  -- no more data found
  if -1 = s.g.mCurrentTickNdx then
    .ok (.ret 0 s)
  else
    match vecAt s.g.mSerialArrays.Tick2dt s.g.mCurrentTickNdx,
      vecAt s.g.mSerialArrays.Tick2Ask s.g.mCurrentTickNdx,
      vecAt s.g.mSerialArrays.Tick2Bid s.g.mCurrentTickNdx with
    | .ok ts, .ok ask, .ok bid =>
      let dt : Int := 25569 * msPerDay + ts
      if 0 = TickMinutes then
        .ok (rawTick Start NTicks dt ask bid s)
      else if bucketDivisor TickMinutes = 0 then
        .fault .divideByZero
      else
        .ok (barTick Start NTicks dt (epocMinutesOf TickMinutes ts) ask bid s)
    | _, _, _ => .fault .readPastEnd

/-- The body of the loop of `BrokerHistory2` (lines 206-283). -/
def historyBody (fs : FileSystem) (Symbol : String) (Start End : Int)
    (TickMinutes NTicks : Int) (s : Frame) : Run Flow :=
  -- no more data, reload a new day
  match reloadDay fs Symbol Start End s.g with
  | .ok g => historyTick Start TickMinutes NTicks { s with g := g }
  | .fault f => .fault f
  | .timeout => .timeout

/-- The loop increment `mCurrentTickNdx--`. -/
def Frame.decrement (s : Frame) : Frame :=
  { s with g := { s.g with mCurrentTickNdx := s.g.mCurrentTickNdx - 1 } }

/-- The loop `for (;; mCurrentTickNdx--)` of `BrokerHistory2` with an iteration budget. -/
def historyLoop (fs : FileSystem) (Symbol : String) (Start End : Int)
    (TickMinutes NTicks : Int) : Nat → Frame → Run (Int × Frame)
  | 0, _ => .timeout
  | fuel + 1, s =>
    match historyBody fs Symbol Start End TickMinutes NTicks s with
    | .ok (.next s1) =>
      historyLoop fs Symbol Start End TickMinutes NTicks fuel s1.decrement
    | .ok (.ret n s1) => .ok (n, s1)
    | .fault f => .fault f
    | .timeout => .timeout

/-- The function `BrokerHistory2` run for at most `fuel` passes of its loop: the returned
count and the final state. `Ticks` is the caller's buffer as handed in. -/
def BrokerHistory2 (fs : FileSystem) (fuel : Nat) (Symbol : String) (Start End : Int)
    (TickMinutes NTicks : Int) (Ticks : Nat → T6) (g : Globals) : Run (Int × Frame) :=
  historyLoop fs Symbol Start End TickMinutes NTicks fuel
    { g := { g with mPrevMinutes := INT_MAX }
      tickCount := 0
      Ticks := 0
      buf := Ticks
      written := [] }

/-! ## The decoder as a transform of the records -/

/-- The 64-bit field `k` (0 timestamp, 1 bid, 2 ask) of record `i` of the buffer. -/
def rawField (data : List Nat) (i k : Nat) : Nat :=
  leValue ((data.drop (24 * i + 8 * k)).take 8)

/-- The raw 64-bit timestamp of record `i`. -/
def rawTimestamp (data : List Nat) (i : Nat) : Nat := rawField data i 0
/-- The low 32 bits of the raw bid field of record `i`. -/
def rawBid (data : List Nat) (i : Nat) : Nat := rawField data i 1 % 2 ^ 32
/-- The low 32 bits of the raw ask field of record `i`. -/
def rawAsk (data : List Nat) (i : Nat) : Nat := rawField data i 2 % 2 ^ 32

/-- The forward-filled bid of record `i`: the raw bid when it is not zero, else the filled
bid of the record before, else (record 0) the raw ask. -/
def fillBid (data : List Nat) : Nat → Nat
  | 0 => if rawBid data 0 ≠ 0 then rawBid data 0 else rawAsk data 0
  | i + 1 => if rawBid data (i + 1) ≠ 0 then rawBid data (i + 1) else fillBid data i

/-- The forward-filled ask of record `i`: the raw ask when it is not zero, else the filled
ask of the record before, else (record 0) the raw bid. -/
def fillAsk (data : List Nat) : Nat → Nat
  | 0 => if rawAsk data 0 ≠ 0 then rawAsk data 0 else rawBid data 0
  | i + 1 => if rawAsk data (i + 1) ≠ 0 then rawAsk data (i + 1) else fillAsk data i

/-- The arrays hold the decoded records below index `k`, and have length `N`. -/
def DecodedUpTo (data : List Nat) (N k : Nat) (m : SerialArrays) : Prop :=
  m.Tick2dt.length = N ∧ m.Tick2Bid.length = N ∧ m.Tick2Ask.length = N ∧
  ∀ i, i < k → m.Tick2dt[i]? = some (rawTimestamp data i) ∧
    m.Tick2Bid[i]? = some (fillBid data i) ∧ m.Tick2Ask[i]? = some (fillAsk data i)

/-! ## Observations of a call and test data -/

/-- The first `n` passes through the loop of `BrokerHistory2` from the state `s`, each
followed by the loop's `mCurrentTickNdx--`; a pass that returns ends them. -/
def historyPasses (fs : FileSystem) (Symbol : String) (Start End : Int)
    (TickMinutes NTicks : Int) : Nat → Frame → Run Flow
  | 0, s => .ok (.next s)
  | n + 1, s =>
    match historyBody fs Symbol Start End TickMinutes NTicks s with
    | .ok (.next s1) => historyPasses fs Symbol Start End TickMinutes NTicks n s1.decrement
    | r => r

/-- The ask of the loaded tick `i`, as a multiple of `tickSize`. -/
def Globals.askAt (g : Globals) (i : Nat) : Int := (g.mSerialArrays.Tick2Ask.getD i 0 : Nat)

/-- The bid of the loaded tick `i`, as a multiple of `tickSize`. -/
def Globals.bidAt (g : Globals) (i : Nat) : Int := (g.mSerialArrays.Tick2Bid.getD i 0 : Nat)

/-- The time of the loaded tick `i` as a `DATE`: `25569.0 + Tick2dt[i] / 86400000.0`. -/
def Globals.timeAt (g : Globals) (i : Nat) : Int :=
  25569 * msPerDay + (g.mSerialArrays.Tick2dt.getD i 0 : Nat)

/-- The time of the loaded tick `i` as the `double` that line 229 computes. -/
def Globals.dateAt (g : Globals) (i : Nat) : Int := tickDate (g.mSerialArrays.Tick2dt.getD i 0)

/-- The bucket `epocMinutes` of the loaded tick `i`. -/
def Globals.bucketAt (g : Globals) (TickMinutes : Int) (i : Nat) : Int :=
  epocMinutesOf TickMinutes (g.mSerialArrays.Tick2dt.getD i 0)

/-- The count a call returned. -/
def Run.returned (r : Run (Int × Frame)) : Option Int :=
  match r with
  | .ok (n, _) => some n
  | _ => none

/-- The records a call hands to its caller: the slots below the returned count. -/
def Run.records (r : Run (Int × Frame)) : Option (List T6) :=
  match r with
  | .ok (n, s) => some ((List.range n.toNat).map s.buf)
  | _ => none

/-- The distinct slots a call wrote into, the first written first. -/
def Run.slotsWritten (r : Run (Int × Frame)) : Option (List Nat) :=
  match r with
  | .ok (_, s) => some s.written.reverse.dedup
  | _ => none

/-- The member variables after a call. -/
def Run.globals (r : Run (Int × Frame)) : Option Globals :=
  match r with
  | .ok (_, s) => some s.g
  | _ => none

/-- The `n` low bytes of `x`, least significant first. -/
def leBytes : Nat → Nat → List Nat
  | 0, _ => []
  | n + 1, x => x % 256 :: leBytes n (x / 256)

/-- The 24 bytes of one record of a day file. -/
def encodeRecord (ts bid ask : Nat) : List Nat :=
  leBytes 8 ts ++ leBytes 8 bid ++ leBytes 8 ask

/-- The member variables at program start: zero-initialised. -/
def freshGlobals : Globals :=
  { mIs1stAfterBrokerLogin := false
    mCurrentTickNdx := 0
    mTickVolume := 0
    mPrevMinutes := 0
    mCachePath := ""
    mSerialArrays := { Tick2dt := [], Tick2Bid := [], Tick2Ask := [] } }

/-- The member variables as a first `BrokerLogin` leaves them. -/
def afterLogin : Globals :=
  (BrokerLogin "C:\\AppData" (fun _ => true) (some "Broker") "Demo" freshGlobals).2

/-- A caller's buffer filled with zeros. -/
def zeroTicks : Nat → T6 := fun _ =>
  { time := 0, fHigh := 0, fLow := 0, fOpen := 0, fClose := 0, fVal := 0, fVol := 0 }

/-- Raw tick mode, at the head of the loop: the count is the pointer offset and the
slots written are those below the pointer. -/
def RawCount (s : Frame) : Prop :=
  s.tickCount = s.Ticks ∧ ∀ i, i ∈ s.written ↔ i < s.Ticks

/-- Bar mode, at the head of the loop: the count is the pointer offset, the slots below
the pointer are written, none above it is, and the slot under the pointer is written once
a tick of this call has been seen. -/
def BarCount (s : Frame) : Prop :=
  s.tickCount = s.Ticks ∧ (∀ i, i ∈ s.written → i ≤ s.Ticks) ∧
  (∀ i, i < s.Ticks → i ∈ s.written) ∧ (s.g.mPrevMinutes ≠ INT_MAX → s.Ticks ∈ s.written)

/-- A day with a single tick, the day before `End`. -/
def oneTickDay : FileSystem := fun _ day =>
  if day = 25570 then .inflated (encodeRecord 86401000 5 7) else .absent

/-- The state in which the bar mode loop on `oneTickDay` is caught. -/
def Caught (s : Frame) : Prop :=
  s.g.mCurrentTickNdx = -1 ∧ s.g.mIs1stAfterBrokerLogin = false ∧ s.g.mPrevMinutes = 1440

/-- A day with two ticks one second apart, the day before `End`. -/
def twoTickDay : FileSystem := fun _ day =>
  if day = 25570 then
    .inflated (encodeRecord 86401000 5 7 ++ encodeRecord 86402000 6 8)
  else .absent

/-- A day with two ticks two minutes apart, the day before `End`. -/
def twoBucketDay : FileSystem := fun _ day =>
  if day = 25570 then
    .inflated (encodeRecord 86401000 5 7 ++ encodeRecord 86521000 6 8)
  else .absent

/-- No day file at all. -/
def noFiles : FileSystem := fun _ _ => .absent

/-- The member variables with a day of three ticks loaded and the cursor on the last. -/
def threeTicksLoaded : Globals :=
  { mIs1stAfterBrokerLogin := false
    mCurrentTickNdx := 2
    mTickVolume := 0
    mPrevMinutes := 0
    mCachePath := "C:\\Cache"
    mSerialArrays :=
      { Tick2dt := [86401000, 86402000, 86403000], Tick2Bid := [5, 6, 7], Tick2Ask := [7, 8, 9] } }

/-- The member variables with a day of three ticks loaded and the cursor on the last; the
exact time of the middle tick is 2209248018260 ms. -/
def tickOnStartLoaded : Globals :=
  { mIs1stAfterBrokerLogin := false
    mCurrentTickNdx := 2
    mTickVolume := 0
    mPrevMinutes := 0
    mCachePath := "C:\\Cache"
    mSerialArrays :=
      { Tick2dt := [86401000, 86418260, 86430000], Tick2Bid := [5, 6, 7], Tick2Ask := [7, 8, 9] } }

/-- A call made with the member variables a first call has left. -/
def Run.thenCall (r : Run (Int × Frame)) (call : Globals → Run (Int × Frame)) :
    Run (Int × Frame) :=
  match r with
  | .ok (_, s) => call s.g
  | .fault f => .fault f
  | .timeout => .timeout

/-- The ticks (t=80, ask=1.0990), (t=90, ask=1.1010), (t=100, ask=1.1000) loaded, prices
in units of `tickSize = 1e-5`, the cursor on the newest, at the start of a call. -/
def threeTickBar : Frame :=
  { g :=
      { mIs1stAfterBrokerLogin := false
        mCurrentTickNdx := 2
        mTickVolume := 0
        mPrevMinutes := INT_MAX
        mCachePath := "C:\\Cache"
        mSerialArrays :=
          { Tick2dt := [80, 90, 100], Tick2Bid := [109890, 110090, 109990]
            Tick2Ask := [109900, 110100, 110000] } }
    tickCount := 0
    Ticks := 0
    buf := zeroTicks
    written := [] }

/-- A day file that `ReadCTraderDayV2` answers with an error string: not found, not
opened, or not inflated to the end of the stream. -/
def DayFile.unavailable : DayFile → Bool
  | .inflated _ => false
  | _ => true

/-- The arrays that a buffer of whole records decodes into. -/
def decodedDay (data : List Nat) : SerialArrays :=
  { Tick2dt := (List.range (data.length / 24)).map (rawTimestamp data)
    Tick2Bid := (List.range (data.length / 24)).map (fillBid data)
    Tick2Ask := (List.range (data.length / 24)).map (fillAsk data) }

/-- The day of `End` holding one tick, no file for the days before. -/
def lastDayOnly : FileSystem := fun _ day =>
  if day = 25571 then .inflated (encodeRecord 172801000 5 7) else .absent

/-- The day of `End` with a file of no record, the day before holding two ticks. -/
def emptyDayThenTicks : FileSystem := fun _ day =>
  if day = 25571 then .inflated []
  else if day = 25570 then
    .inflated (encodeRecord 86401000 5 7 ++ encodeRecord 86402000 6 8)
  else .absent

/-- Two days with files: day 25570 with two ticks, day 25569 with one tick. -/
def twoDays : FileSystem := fun _ day =>
  if day = 25570 then
    .inflated (encodeRecord 86401000 5 7 ++ encodeRecord 86402000 6 8)
  else if day = 25569 then .inflated (encodeRecord 1000 1 2)
  else .absent

/-- A day with one tick whose bid is above its ask. -/
def crossedTickDay : FileSystem := fun _ day =>
  if day = 25570 then .inflated (encodeRecord 86401000 9 7) else .absent

/-- The cursor is -1 or an index of each of the three arrays. -/
def CursorOK (g : Globals) : Prop :=
  -1 ≤ g.mCurrentTickNdx ∧ g.mCurrentTickNdx < g.mSerialArrays.Tick2dt.length ∧
  g.mCurrentTickNdx < g.mSerialArrays.Tick2Ask.length ∧
  g.mCurrentTickNdx < g.mSerialArrays.Tick2Bid.length

/-- Every day file that inflates holds a whole number of 24-byte records. -/
def WholeRecords (fs : FileSystem) : Prop :=
  ∀ (path : String) (day : Int) (data : List Nat),
    fs path day = .inflated data → data.length % 24 = 0

/-- The member variables that a session can reach: those `BrokerLogin` establishes, and
those a call of `BrokerHistory2` that returns leaves. -/
inductive Session (fs : FileSystem) : Globals → Prop where
  | login (APPDATA : String) (isDirectory : String → Bool) (user Password : String)
      (g0 : Globals) : Session fs (BrokerLogin APPDATA isDirectory (some user) Password g0).2
  | call (g : Globals) (fuel : Nat) (Symbol : String) (Start End TickMinutes NTicks : Int)
      (Ticks : Nat → T6) (n : Int) (fr : Frame) :
      Session fs g →
      BrokerHistory2 fs fuel Symbol Start End TickMinutes NTicks Ticks g = .ok (n, fr) →
      Session fs fr.g

/-- The outcome of passes of the loop that keep the cursor in bounds: the cursor is in
bounds in the state reached, and no array was read or written past its end. -/
def PassOK (r : Run Flow) : Prop :=
  match r with
  | .ok (.next s) => CursorOK s.g
  | .ok (.ret _ s) => CursorOK s.g
  | .fault f => f = .divideByZero
  | .timeout => False

/-- The frame in which a pass of the loop body ends. -/
def Flow.frame : Flow → Frame
  | .next s => s
  | .ret _ s => s

/-- The bytes of a day file of three ticks, the last one second before midnight. -/
def boundaryEarlierDay : List Nat :=
  encodeRecord 200000000 1 2 ++ encodeRecord 250000000 4 6 ++ encodeRecord 259199000 3 11

/-- Day 25572 with two ticks and day 25571 with three: with buckets of 1000 minutes the
earliest tick of the later day and the two latest ticks of the earlier day share bucket 4. -/
def boundaryDays : FileSystem := fun _ day =>
  if day = 25572 then
    .inflated (encodeRecord 259201000 5 7 ++ encodeRecord 300001000 6 9)
  else if day = 25571 then .inflated boundaryEarlierDay
  else .absent

/-- The frame of a bar mode call on `boundaryDays` after the pass on the latest tick of day
25572: that day loaded, the cursor on its tick 0, the bar of bucket 5 in slot 0. -/
def boundaryFrame : Frame :=
  { g := { afterLogin with
           mIs1stAfterBrokerLogin := false
           mCurrentTickNdx := 0
           mTickVolume := 1
           mPrevMinutes := 5
           mSerialArrays :=
             { Tick2dt := [259201000, 300001000], Tick2Bid := [5, 6], Tick2Ask := [7, 9] } }
    tickCount := 0
    Ticks := 0
    buf := Function.update zeroTicks 0
      { time := 25569 * msPerDay + 300001000, fHigh := 9, fLow := 9, fOpen := 9, fClose := 9,
        fVal := 3, fVol := 1 }
    written := [0] }

/-! ## Lemmas on runs -/

@[simp]
theorem Run.ok_bind {α β : Type} (a : α) (f : α → Run β) : (Run.ok a >>= f) = f a := rfl
@[simp]
theorem Run.fault_bind {α β : Type} (e : Fault) (f : α → Run β) :
    ((Run.fault e : Run α) >>= f) = .fault e := rfl
@[simp]
theorem Run.timeout_bind {α β : Type} (f : α → Run β) :
    ((Run.timeout : Run α) >>= f) = .timeout := rfl
@[simp]
theorem Run.pure_eq {α : Type} (a : α) : (pure a : Run α) = .ok a := rfl

/-! ## The decoder -/

theorem vecGet_of_getElem? {v : List Nat} {i x : Nat} (h : v[i]? = some x) :
    vecGet v i = .ok x := by
  simp [vecGet, h]

theorem parseRecord_ok (data : List Nat) (i : Nat) (m : SerialArrays)
    (hsrc : 24 * i + 24 ≤ data.length)
    (h1 : i < m.Tick2dt.length) (h2 : i < m.Tick2Bid.length) (h3 : i < m.Tick2Ask.length) :
    parseRecord data (24 * i) i m = .ok
      { Tick2dt := m.Tick2dt.set i (rawTimestamp data i)
        Tick2Bid := m.Tick2Bid.set i
          (if rawBid data i = 0 then
            (if i = 0 then rawAsk data i else m.Tick2Bid.getD (i - 1) 0) else rawBid data i)
        Tick2Ask := m.Tick2Ask.set i
          (if rawAsk data i = 0 then
            (if i = 0 then rawBid data i else m.Tick2Ask.getD (i - 1) 0) else rawAsk data i) } := by
  have e0 : readInt64 data (24 * i) = .ok (rawField data i 0) := by
    simp [readInt64, rawField]; omega
  have e1 : readInt64 data (24 * i + 8) = .ok (rawField data i 1) := by
    simp [readInt64, rawField]; omega
  have e2 : readInt64 data (24 * i + 16) = .ok (rawField data i 2) := by
    simp [readInt64, rawField]; omega
  unfold parseRecord
  simp only [e0, e1, e2, vecSet, h1, h2, h3, if_true, Run.ok_bind, Run.pure_eq, rawTimestamp,
    rawBid, rawAsk]
  rcases Nat.eq_zero_or_pos i with hi | hi
  · subst hi
    split_ifs <;> simp_all
  · have hi0 : i ≠ 0 := by omega
    have g1 : ∀ v : List Nat, i < v.length → vecGet v (i - 1) = .ok (v.getD (i - 1) 0) := by
      intro v hv
      have : i - 1 < v.length := by omega
      simp [vecGet, List.getD, List.getElem?_eq_getElem this]
    simp only [hi0, if_false, g1 _ h2, g1 _ h3, Run.ok_bind]
    split_ifs <;> rfl

theorem parseRecord_decoded (data : List Nat) (N k : Nat) (m : SerialArrays)
    (hlen : data.length = 24 * N) (hk : k < N) (h : DecodedUpTo data N k m) :
    ∃ m1, parseRecord data (24 * k) k m = .ok m1 ∧ DecodedUpTo data N (k + 1) m1 := by
  obtain ⟨l1, l2, l3, hv⟩ := h
  refine ⟨_, parseRecord_ok data k m (by omega) (by omega) (by omega) (by omega), ?_⟩
  refine ⟨by simp [l1], by simp [l2], by simp [l3], ?_⟩
  intro i hi
  rcases Nat.lt_succ_iff_lt_or_eq.mp hi with hlt | heq
  · have hne : k ≠ i := by omega
    simp only [List.getElem?_set_ne hne]
    exact hv i hlt
  · subst heq
    have b1 : i < m.Tick2dt.length := by omega
    have b2 : i < m.Tick2Bid.length := by omega
    have b3 : i < m.Tick2Ask.length := by omega
    simp only [List.getElem?_set_self, List.getElem?_eq_getElem, b1, b2, b3, List.length_set,
      Option.some.injEq, true_and]
    cases i with
    | zero => simp [fillBid, fillAsk]
    | succ j =>
      have := hv j (by omega)
      simp [fillBid, fillAsk, List.getD, this.2.1, this.2.2]

theorem parseLoop_decoded (data : List Nat) (N : Nat) (hlen : data.length = 24 * N) :
    ∀ (fuel k : Nat) (m : SerialArrays), k ≤ N → N - k < fuel → DecodedUpTo data N k m →
      ∃ m1, parseLoop data fuel (24 * k) k m = .ok m1 ∧ DecodedUpTo data N N m1 := by
  intro fuel
  induction fuel with
  | zero => intro k m _ hf; omega
  | succ fuel ih =>
    intro k m hk hf h
    unfold parseLoop
    by_cases hlt : 24 * k < data.length
    · have hkN : k < N := by omega
      obtain ⟨m1, e1, h1⟩ := parseRecord_decoded data N k m hlen hkN h
      simp only [hlt, if_true, e1]
      have := ih (k + 1) m1 (by omega) (by omega) h1
      simpa [Nat.mul_add] using this
    · have hkN : k = N := by omega
      subst hkN
      exact ⟨m, by simp [hlt], h⟩

theorem list_eq_map_range (v : List Nat) (N : Nat) (f : Nat → Nat) (hl : v.length = N)
    (h : ∀ i, i < N → v[i]? = some (f i)) : v = (List.range N).map f := by
  apply List.ext_getElem?
  intro i
  by_cases hi : i < N
  · rw [h i hi]; simp [List.getElem?_range hi, hi]
  · rw [List.getElem?_eq_none (by omega), List.getElem?_eq_none (by simp; omega)]

/-- Decoding a buffer of `N` whole records succeeds with the forward-filled arrays. -/
theorem ReadCTraderDayV2_whole (data : List Nat) (N : Nat) (m : SerialArrays)
    (hlen : data.length = 24 * N) :
    ReadCTraderDayV2 (.inflated data) m = .ok ("",
      { Tick2dt := (List.range N).map (rawTimestamp data)
        Tick2Bid := (List.range N).map (fillBid data)
        Tick2Ask := (List.range N).map (fillAsk data) }) := by
  have hN : data.length / 24 = N := by omega
  have h0 : DecodedUpTo data N 0
      { Tick2dt := resize m.Tick2dt N, Tick2Bid := resize m.Tick2Bid N,
        Tick2Ask := resize m.Tick2Ask N } := by
    refine ⟨?_, ?_, ?_, fun i hi => absurd hi (Nat.not_lt_zero i)⟩ <;>
      simp [resize, List.length_take] <;> omega
  obtain ⟨m1, e1, l1, l2, l3, hv⟩ :=
    parseLoop_decoded data N hlen (data.length + 1) 0 _ (Nat.zero_le N) (by omega) h0
  simp only [ReadCTraderDayV2, hN]
  simp only [Nat.mul_zero] at e1
  rw [e1]
  have a1 := list_eq_map_range m1.Tick2dt N _ l1 (fun i hi => (hv i hi).1)
  have a2 := list_eq_map_range m1.Tick2Bid N _ l2 (fun i hi => (hv i hi).2.1)
  have a3 := list_eq_map_range m1.Tick2Ask N _ l3 (fun i hi => (hv i hi).2.2)
  cases m1
  simp_all

/-! ## A buffer that ends inside a record -/

theorem parseRecord_fault (data : List Nat) (src k : Nat) (m : SerialArrays)
    (h : m.Tick2dt.length ≤ k) : ∃ f, parseRecord data src k m = .fault f := by
  unfold parseRecord
  by_cases hr : src + 8 ≤ data.length
  · have hk : ¬ k < m.Tick2dt.length := by omega
    exact ⟨.writePastEnd, by simp [readInt64, hr, vecSet, hk]⟩
  · exact ⟨.readPastEnd, by simp [readInt64, hr]⟩

theorem parseLoop_fault (data : List Nat) (N : Nat) (hN : data.length / 24 = N)
    (hrem : data.length % 24 ≠ 0) :
    ∀ (fuel k : Nat) (m : SerialArrays), k ≤ N → N - k < fuel →
      m.Tick2dt.length = N → m.Tick2Bid.length = N → m.Tick2Ask.length = N →
      ∃ f, parseLoop data fuel (24 * k) k m = .fault f := by
  intro fuel
  induction fuel with
  | zero => intro k m _ hf; omega
  | succ fuel ih =>
    intro k m hk hf l1 l2 l3
    unfold parseLoop
    have hlt : 24 * k < data.length := by omega
    simp only [hlt, if_true]
    by_cases hkN : k < N
    · rw [parseRecord_ok data k m (by omega) (by omega) (by omega) (by omega)]
      have h24 : 24 * k + 24 = 24 * (k + 1) := by ring
      rw [h24]
      exact ih (k + 1) _ (by omega) (by omega) (by simp [l1]) (by simp [l2]) (by simp [l3])
    · obtain ⟨f, hf⟩ := parseRecord_fault data (24 * k) k m (by omega)
      exact ⟨f, by rw [hf]⟩

/-- A buffer that ends in a partial record makes the parse loop run past the end. -/
theorem ReadCTraderDayV2_trailing_bytes (data : List Nat) (m : SerialArrays)
    (hrem : data.length % 24 ≠ 0) :
    ∃ f, ReadCTraderDayV2 (.inflated data) m = .fault f := by
  obtain ⟨f, hf⟩ := parseLoop_fault data (data.length / 24) rfl hrem (data.length + 1) 0
    { Tick2dt := resize m.Tick2dt (data.length / 24)
      Tick2Bid := resize m.Tick2Bid (data.length / 24)
      Tick2Ask := resize m.Tick2Ask (data.length / 24) }
    (Nat.zero_le _) (by omega)
    (by simp [resize, List.length_take]; omega) (by simp [resize, List.length_take]; omega)
    (by simp [resize, List.length_take]; omega)
  refine ⟨f, ?_⟩
  simp only [ReadCTraderDayV2]
  simp only [Nat.mul_zero] at hf
  rw [hf]

/-! ## The forward fill -/

theorem fillBid_ne_zero (data : List Nat) (h0 : rawBid data 0 ≠ 0 ∨ rawAsk data 0 ≠ 0) :
    ∀ i, fillBid data i ≠ 0 := by
  intro i
  induction i with
  | zero =>
    unfold fillBid
    split_ifs with h
    · exact h
    · rcases h0 with h0 | h0
      · exact absurd h0 h
      · exact h0
  | succ j ih =>
    unfold fillBid
    split_ifs with h
    · exact h
    · exact ih

theorem fillAsk_ne_zero (data : List Nat) (h0 : rawBid data 0 ≠ 0 ∨ rawAsk data 0 ≠ 0) :
    ∀ i, fillAsk data i ≠ 0 := by
  intro i
  induction i with
  | zero =>
    unfold fillAsk
    split_ifs with h
    · exact h
    · rcases h0 with h0 | h0
      · exact h0
      · exact absurd h0 h
  | succ j ih =>
    unfold fillAsk
    split_ifs with h
    · exact h
    · exact ih

/-! ## The loop of BrokerHistory2 -/

theorem vecAt_ok (v : List Nat) (c : Nat) (h : c < v.length) :
    vecAt v (c : Int) = .ok (v.getD c 0) := by
  simp [vecAt, vecGet, List.getD, List.getElem?_eq_getElem h]

theorem reloadDay_loaded (fs : FileSystem) (Symbol : String) (Start End : Int) (g : Globals)
    (h : 0 ≤ g.mCurrentTickNdx) : reloadDay fs Symbol Start End g = .ok g := by
  have : ¬ g.mCurrentTickNdx < 0 := by omega
  simp [reloadDay, this]

/-- The frame with `mIs1stAfterBrokerLogin = false` (line 221). -/
theorem historyBody_loaded (fs : FileSystem) (Symbol : String) (Start End : Int)
    (TickMinutes NTicks : Int) (s : Frame) (h : 0 ≤ s.g.mCurrentTickNdx) :
    historyBody fs Symbol Start End TickMinutes NTicks s =
      historyTick Start TickMinutes NTicks s := by
  unfold historyBody
  rw [reloadDay_loaded fs Symbol Start End s.g h]

/-- The body of the loop on a loaded tick in bar mode. -/
theorem historyTick_bar (Start : Int) (TickMinutes NTicks : Int) (s : Frame) (c : Nat)
    (hmode : TickMinutes ≠ 0) (hdiv : bucketDivisor TickMinutes ≠ 0)
    (hcur : s.g.mCurrentTickNdx = c)
    (h1 : c < s.g.mSerialArrays.Tick2dt.length) (h2 : c < s.g.mSerialArrays.Tick2Ask.length)
    (h3 : c < s.g.mSerialArrays.Tick2Bid.length) :
    historyTick Start TickMinutes NTicks s =
      .ok (barTick Start NTicks (s.g.timeAt c) (s.g.bucketAt TickMinutes c) (s.g.askAt c)
        (s.g.bidAt c) { s with g := { s.g with mIs1stAfterBrokerLogin := false } }) := by
  have hm : ¬ (0 = TickMinutes) := fun h => hmode h.symm
  have hc : ¬ (-1 = (c : Int)) := by omega
  unfold historyTick
  simp only [hcur, hc, if_false, vecAt_ok _ c h1, vecAt_ok _ c h2, vecAt_ok _ c h3, hm, hdiv,
    Globals.timeAt, Globals.bucketAt, Globals.askAt, Globals.bidAt]

theorem historyBody_bar (fs : FileSystem) (Symbol : String) (Start End : Int)
    (TickMinutes NTicks : Int) (s : Frame) (c : Nat)
    (hmode : TickMinutes ≠ 0) (hdiv : bucketDivisor TickMinutes ≠ 0)
    (hcur : s.g.mCurrentTickNdx = c)
    (h1 : c < s.g.mSerialArrays.Tick2dt.length) (h2 : c < s.g.mSerialArrays.Tick2Ask.length)
    (h3 : c < s.g.mSerialArrays.Tick2Bid.length) :
    historyBody fs Symbol Start End TickMinutes NTicks s =
      .ok (barTick Start NTicks (s.g.timeAt c) (s.g.bucketAt TickMinutes c) (s.g.askAt c)
        (s.g.bidAt c) { s with g := { s.g with mIs1stAfterBrokerLogin := false } }) := by
  rw [historyBody_loaded fs Symbol Start End TickMinutes NTicks s (by omega)]
  exact historyTick_bar Start TickMinutes NTicks s c hmode hdiv hcur h1 h2 h3

theorem epocMinutesOf_le (TickMinutes : Int) (ts : Nat) :
    epocMinutesOf TickMinutes ts ≤ INT_MAX := by
  unfold epocMinutesOf toInt32 INT_MAX
  omega

/-- What a pass of the loop body that returns normally has done: given up with the
cursor at -1, or run the branch of the mode on the tick under the cursor. -/
theorem historyTick_cases (Start : Int) (TickMinutes NTicks : Int) (s : Frame) (fl : Flow)
    (h : historyTick Start TickMinutes NTicks s = .ok fl) :
    (s.g.mCurrentTickNdx = -1 ∧
      fl = .ret 0 { s with g := { s.g with mIs1stAfterBrokerLogin := false } }) ∨
    (s.g.mCurrentTickNdx ≠ -1 ∧ ∃ (dt : Int) (ask bid : Nat),
      (TickMinutes = 0 ∧ fl = rawTick Start NTicks dt ask bid
        { s with g := { s.g with mIs1stAfterBrokerLogin := false } }) ∨
      (TickMinutes ≠ 0 ∧ ∃ e : Int, e ≤ INT_MAX ∧ fl = barTick Start NTicks dt e ask bid
        { s with g := { s.g with mIs1stAfterBrokerLogin := false } })) := by
  unfold historyTick at h
  by_cases hc : -1 = s.g.mCurrentTickNdx
  · left
    simp only [hc, if_true, Run.ok.injEq] at h
    exact ⟨hc.symm, h.symm⟩
  · right
    refine ⟨fun e => hc e.symm, ?_⟩
    simp only [hc, if_false] at h
    split at h
    · rename_i ts ask bid _ _ _
      refine ⟨25569 * msPerDay + ts, ask, bid, ?_⟩
      by_cases hm : 0 = TickMinutes
      · left
        simp only [hm, if_true, Run.ok.injEq] at h
        exact ⟨hm.symm, h.symm⟩
      · right
        simp only [hm, if_false] at h
        split at h
        · simp at h
        · simp only [Run.ok.injEq] at h
          exact ⟨fun e => hm e.symm, _, epocMinutesOf_le _ _, h.symm⟩
    · simp at h

theorem historyPasses_succ (fs : FileSystem) (Symbol : String) (Start End : Int)
    (TickMinutes NTicks : Int) :
    ∀ (n : Nat) (s s1 : Frame),
      historyPasses fs Symbol Start End TickMinutes NTicks n s = .ok (.next s1) →
      historyPasses fs Symbol Start End TickMinutes NTicks (n + 1) s =
        match historyBody fs Symbol Start End TickMinutes NTicks s1 with
        | .ok (.next s2) => .ok (.next s2.decrement)
        | r => r := by
  intro n
  induction n with
  | zero =>
    intro s s1 h
    simp only [historyPasses, Run.ok.injEq, Flow.next.injEq] at h
    subst h
    simp only [historyPasses]
  | succ n ih =>
    intro s s1 h
    rw [historyPasses] at h
    rw [historyPasses]
    split at h
    · rename_i s2 e2
      exact ih _ _ h
    · rename_i r hr
      cases hb : historyBody fs Symbol Start End TickMinutes NTicks s with
      | ok fl =>
        cases fl with
        | next s2 => exact absurd hb (hr s2)
        | ret n s2 => rw [hb] at h; simp at h
      | fault f => rw [hb] at h; simp at h
      | timeout => rw [hb] at h; simp at h

@[simp]
theorem barBuild_Ticks (e a b : Int) (s : Frame) : (barBuild e a b s).Ticks = s.Ticks := rfl
@[simp]
theorem barBuild_tickCount (e a b : Int) (s : Frame) :
    (barBuild e a b s).tickCount = s.tickCount := rfl
@[simp]
theorem barBuild_g (e a b : Int) (s : Frame) :
    (barBuild e a b s).g = { s.g with mTickVolume := s.g.mTickVolume + 1, mPrevMinutes := e } := rfl
theorem barBuild_buf (e a b : Int) (s : Frame) :
    (barBuild e a b s).buf = Function.update s.buf s.Ticks
      { s.buf s.Ticks with
        fHigh := max (s.buf s.Ticks).fHigh a, fLow := min (s.buf s.Ticks).fLow a, fOpen := a
        fVal := a - b, fVol := s.g.mTickVolume + 1 } := by
  simp [barBuild, Frame.store]

@[simp]
theorem barInit_Ticks (dt : Int) (a : Int) (s : Frame) : (barInit dt a s).Ticks = s.Ticks := rfl
@[simp]
theorem barInit_tickCount (dt : Int) (a : Int) (s : Frame) :
    (barInit dt a s).tickCount = s.tickCount := rfl
@[simp]
theorem barInit_g (dt : Int) (a : Int) (s : Frame) :
    (barInit dt a s).g = { s.g with mTickVolume := 0 } := rfl
theorem barInit_buf (dt : Int) (a : Int) (s : Frame) :
    (barInit dt a s).buf = Function.update s.buf s.Ticks
      { s.buf s.Ticks with time := dt, fOpen := a, fClose := a, fHigh := a, fLow := a, fVol := 0 } := by
  simp [barInit, Frame.store]

@[simp]
theorem decrement_Ticks (s : Frame) : s.decrement.Ticks = s.Ticks := rfl
@[simp]
theorem decrement_buf (s : Frame) : s.decrement.buf = s.buf := rfl
@[simp]
theorem decrement_tickCount (s : Frame) : s.decrement.tickCount = s.tickCount := rfl
@[simp]
theorem decrement_written (s : Frame) : s.decrement.written = s.written := rfl
@[simp]
theorem decrement_g (s : Frame) :
    s.decrement.g = { s.g with mCurrentTickNdx := s.g.mCurrentTickNdx - 1 } := rfl

theorem barAdvance_g (s : Frame) : (barAdvance s).g = s.g := by
  unfold barAdvance; split <;> rfl
theorem barAdvance_buf (s : Frame) : (barAdvance s).buf = s.buf := by
  unfold barAdvance; split <;> rfl
theorem barAdvance_Ticks (s : Frame) :
    (barAdvance s).Ticks = if INT_MAX ≠ s.g.mPrevMinutes then s.Ticks + 1 else s.Ticks := by
  unfold barAdvance; split <;> rfl
theorem barAdvance_tickCount (s : Frame) :
    (barAdvance s).tickCount =
      if INT_MAX ≠ s.g.mPrevMinutes then s.tickCount + 1 else s.tickCount := by
  unfold barAdvance; split <;> rfl

/-- The `double` of the time of a loaded tick is the one line 229 computes from its
timestamp. -/
theorem dateOf_timeAt (g : Globals) (i : Nat) : dateOf (g.timeAt i) = g.dateAt i := by
  unfold dateOf Globals.timeAt Globals.dateAt
  congr 1
  omega

/-- The bar branch on a tick of a new bucket on which no bound fires. -/
theorem barTick_new (Start : Int) (NTicks : Int) (dt : Int) (e a b : Int) (s : Frame)
    (hnew : e < s.g.mPrevMinutes)
    (hbound : ¬ ((barAdvance s).tickCount ≥ NTicks ∨ dateOf dt ≤ startDate Start)) :
    barTick Start NTicks dt e a b s = .next (barBuild e a b (barInit dt a (barAdvance s))) := by
  unfold barTick
  simp only [hnew, if_true, barInit_tickCount, barInit_Ticks, barInit_buf, Function.update_same,
    T6.date, hbound, if_false]

/-- The bar branch on a tick of the bucket of the tick before. -/
theorem barTick_same (Start : Int) (NTicks : Int) (dt : Int) (e a b : Int) (s : Frame)
    (hsame : ¬ e < s.g.mPrevMinutes) :
    barTick Start NTicks dt e a b s = .next (barBuild e a b s) := by
  unfold barTick
  simp only [hsame, if_false]

/-- A run of `k` ticks of one bucket that opens a new bar. -/
theorem bar_run (fs : FileSystem) (Symbol : String) (Start End : Int)
    (TickMinutes NTicks : Int) (s : Frame) (c : Nat)
    (hmode : TickMinutes ≠ 0) (hdiv : bucketDivisor TickMinutes ≠ 0)
    (hcur : s.g.mCurrentTickNdx = c)
    (h1 : c < s.g.mSerialArrays.Tick2dt.length) (h2 : c < s.g.mSerialArrays.Tick2Ask.length)
    (h3 : c < s.g.mSerialArrays.Tick2Bid.length)
    (hnew : s.g.bucketAt TickMinutes c < s.g.mPrevMinutes)
    (hbound : ¬ ((if INT_MAX ≠ s.g.mPrevMinutes then s.tickCount + 1 else s.tickCount) ≥ NTicks ∨
      s.g.dateAt c ≤ startDate Start)) :
    ∀ k, 1 ≤ k → k ≤ c + 1 →
      (∀ j, j < k → s.g.bucketAt TickMinutes (c - j) = s.g.bucketAt TickMinutes c) →
      ∃ s1, historyPasses fs Symbol Start End TickMinutes NTicks k s = .ok (.next s1) ∧
        s1.g.mSerialArrays = s.g.mSerialArrays ∧ s1.g.mCurrentTickNdx = (c : Int) - k ∧
        s1.g.mPrevMinutes = s.g.bucketAt TickMinutes c ∧ s1.g.mTickVolume = k ∧
        s1.Ticks = (if INT_MAX ≠ s.g.mPrevMinutes then s.Ticks + 1 else s.Ticks) ∧
        (s1.buf s1.Ticks).time = s.g.timeAt c ∧
        (s1.buf s1.Ticks).fClose = s.g.askAt c ∧
        (s1.buf s1.Ticks).fOpen = s.g.askAt (c - (k - 1)) ∧
        (∀ j, j < k → s.g.askAt (c - j) ≤ (s1.buf s1.Ticks).fHigh) ∧
        (∃ j, j < k ∧ (s1.buf s1.Ticks).fHigh = s.g.askAt (c - j)) ∧
        (∀ j, j < k → (s1.buf s1.Ticks).fLow ≤ s.g.askAt (c - j)) ∧
        (∃ j, j < k ∧ (s1.buf s1.Ticks).fLow = s.g.askAt (c - j)) ∧
        (s1.buf s1.Ticks).fVol = k := by
  intro k hk
  induction k, hk using Nat.le_induction with
  | base =>
    intro _ _
    have hb := historyBody_bar fs Symbol Start End TickMinutes NTicks s c hmode hdiv hcur h1 h2 h3
    have hbound1 : ¬ ((barAdvance { s with g := { s.g with mIs1stAfterBrokerLogin := false } }).tickCount
        ≥ NTicks ∨ dateOf (s.g.timeAt c) ≤ startDate Start) := by
      rw [barAdvance_tickCount, dateOf_timeAt]; exact hbound
    have ht := barTick_new Start NTicks (s.g.timeAt c) (s.g.bucketAt TickMinutes c) (s.g.askAt c)
      (s.g.bidAt c) { s with g := { s.g with mIs1stAfterBrokerLogin := false } } hnew hbound1
    refine ⟨(barBuild (s.g.bucketAt TickMinutes c) (s.g.askAt c) (s.g.bidAt c)
      (barInit (s.g.timeAt c) (s.g.askAt c)
        (barAdvance { s with g := { s.g with mIs1stAfterBrokerLogin := false } }))).decrement,
      by simp only [historyPasses, hb, ht], ?_⟩
    simp only [decrement_g, decrement_Ticks, decrement_buf, barBuild_g, barBuild_Ticks, barInit_g,
      barInit_Ticks, barAdvance_g, barBuild_buf, Function.update_same, barInit_buf, Function.update_same, hcur]
    refine ⟨trivial, by simp, trivial, by simp, by rw [barAdvance_Ticks], trivial, trivial,
      by simp, ?_, ⟨0, by omega, by simp⟩, ?_, ⟨0, by omega, by simp⟩, by simp⟩
    · intro j hj
      have : j = 0 := by omega
      subst this
      simp
    · intro j hj
      have : j = 0 := by omega
      subst this
      simp
  | succ k hk ih =>
    intro hkc hbucket
    obtain ⟨s1, hp, hA, hC, hP, hV, hT, htime, hclose, _, hhi, hhiw, hlo, hlow, _⟩ :=
      ih (by omega) (fun j hj => hbucket j (by omega))
    have hidx : s1.g.mCurrentTickNdx = ((c - k : Nat) : Int) := by omega
    have hb := historyBody_bar fs Symbol Start End TickMinutes NTicks s1 (c - k) hmode hdiv hidx
      (by rw [hA]; omega) (by rw [hA]; omega) (by rw [hA]; omega)
    have e1 : s1.g.timeAt (c - k) = s.g.timeAt (c - k) := by simp [Globals.timeAt, hA]
    have e2 : s1.g.bucketAt TickMinutes (c - k) = s.g.bucketAt TickMinutes c := by
      rw [← hbucket k (by omega)]; simp [Globals.bucketAt, hA]
    have e3 : s1.g.askAt (c - k) = s.g.askAt (c - k) := by simp [Globals.askAt, hA]
    have e4 : s1.g.bidAt (c - k) = s.g.bidAt (c - k) := by simp [Globals.bidAt, hA]
    rw [e1, e2, e3, e4] at hb
    have ht := barTick_same Start NTicks (s.g.timeAt (c - k)) (s.g.bucketAt TickMinutes c)
      (s.g.askAt (c - k)) (s.g.bidAt (c - k))
      { s1 with g := { s1.g with mIs1stAfterBrokerLogin := false } } (by simp [hP])
    refine ⟨(barBuild (s.g.bucketAt TickMinutes c) (s.g.askAt (c - k)) (s.g.bidAt (c - k))
      { s1 with g := { s1.g with mIs1stAfterBrokerLogin := false } }).decrement, ?_, ?_⟩
    · rw [historyPasses_succ fs Symbol Start End TickMinutes NTicks k s s1 hp, hb, ht]
    simp only [decrement_g, decrement_Ticks, decrement_buf, barBuild_g, barBuild_Ticks,
      barBuild_buf, Function.update_same, hA, hC, hV, htime, hclose]
    refine ⟨trivial, by push_cast; ring, trivial, by push_cast; ring, hT, trivial, trivial,
      by simp, ?_, ?_, ?_, ?_, by push_cast; ring⟩
    · intro j hj
      rcases Nat.lt_succ_iff_lt_or_eq.mp hj with hlt | heq
      · exact le_trans (hhi j hlt) (le_max_left _ _)
      · subst heq; exact le_max_right _ _
    · rcases le_total (s.g.askAt (c - k)) (s1.buf s1.Ticks).fHigh with hle | hle
      · obtain ⟨j, hj, hw⟩ := hhiw
        exact ⟨j, by omega, by rw [max_eq_left hle]; exact hw⟩
      · exact ⟨k, by omega, by rw [max_eq_right hle]⟩
    · intro j hj
      rcases Nat.lt_succ_iff_lt_or_eq.mp hj with hlt | heq
      · exact le_trans (min_le_left _ _) (hlo j hlt)
      · subst heq; exact min_le_right _ _
    · rcases le_total (s1.buf s1.Ticks).fLow (s.g.askAt (c - k)) with hle | hle
      · obtain ⟨j, hj, hw⟩ := hlow
        exact ⟨j, by omega, by rw [min_eq_left hle]; exact hw⟩
      · exact ⟨k, by omega, by rw [min_eq_right hle]⟩

/-! ## What the loop counts and writes -/

/-- The day search changes only the arrays and the cursor. -/
theorem daySearch_keeps (fs : FileSystem) (Symbol : String) (Start : Int) :
    ∀ (fuel : Nat) (endRun : Int) (g g1 : Globals),
      daySearch fs Symbol Start fuel endRun g = .ok g1 →
      g1.mPrevMinutes = g.mPrevMinutes ∧ g1.mTickVolume = g.mTickVolume ∧
      g1.mCachePath = g.mCachePath ∧
      g1.mIs1stAfterBrokerLogin = g.mIs1stAfterBrokerLogin := by
  intro fuel
  induction fuel with
  | zero => intro endRun g g1 h; simp [daySearch] at h
  | succ fuel ih =>
    intro endRun g g1 h
    unfold daySearch at h
    split at h
    · split at h
      · split at h
        · simp only [Run.ok.injEq] at h
          subst h
          exact ⟨rfl, rfl, rfl, rfl⟩
        · have hh := ih _ _ _ h
          exact hh
      · simp at h
      · simp at h
    · simp only [Run.ok.injEq] at h
      subst h
      exact ⟨rfl, rfl, rfl, rfl⟩

theorem reloadDay_keeps (fs : FileSystem) (Symbol : String) (Start End : Int)
    (g g1 : Globals) (h : reloadDay fs Symbol Start End g = .ok g1) :
    g1.mPrevMinutes = g.mPrevMinutes ∧ g1.mTickVolume = g.mTickVolume ∧
    g1.mCachePath = g.mCachePath ∧
    g1.mIs1stAfterBrokerLogin = g.mIs1stAfterBrokerLogin := by
  unfold reloadDay at h
  split at h
  · exact daySearch_keeps fs Symbol Start _ _ _ _ h
  · simp only [Run.ok.injEq] at h
    subst h
    exact ⟨rfl, rfl, rfl, rfl⟩

/-- What a pass of the loop body that returns normally has done. -/
theorem historyBody_cases (fs : FileSystem) (Symbol : String) (Start End : Int)
    (TickMinutes NTicks : Int) (s : Frame) (fl : Flow)
    (h : historyBody fs Symbol Start End TickMinutes NTicks s = .ok fl) :
    ∃ s1 : Frame, s1.tickCount = s.tickCount ∧ s1.Ticks = s.Ticks ∧ s1.buf = s.buf ∧
      s1.written = s.written ∧ s1.g.mPrevMinutes = s.g.mPrevMinutes ∧
      ((s1.g.mCurrentTickNdx = -1 ∧ fl = .ret 0 s1) ∨
       (s1.g.mCurrentTickNdx ≠ -1 ∧ ∃ (dt : Int) (ask bid : Nat),
          (TickMinutes = 0 ∧ fl = rawTick Start NTicks dt ask bid s1) ∨
          (TickMinutes ≠ 0 ∧ ∃ e : Int, e ≤ INT_MAX ∧
            fl = barTick Start NTicks dt e ask bid s1))) := by
  unfold historyBody at h
  split at h
  · rename_i g1 hg
    have hk := reloadDay_keeps fs Symbol Start End s.g g1 hg
    refine ⟨{ s with g := { g1 with mIs1stAfterBrokerLogin := false } }, rfl, rfl, rfl, rfl,
      hk.1, ?_⟩
    exact historyTick_cases Start TickMinutes NTicks _ fl h
  · simp at h
  · simp at h

theorem rawTick_count (Start : Int) (NTicks : Int) (dt : Int) (ask bid : Nat) (s : Frame)
    (h : RawCount s) :
    (∀ s1, rawTick Start NTicks dt ask bid s = .next s1 → RawCount s1) ∧
    (∀ n s1, rawTick Start NTicks dt ask bid s = .ret n s1 →
      ∀ i, i ∈ s1.written ↔ (i : Int) < n) := by
  obtain ⟨h1, h2⟩ := h
  unfold rawTick
  simp only [Frame.store]
  constructor
  · intro s1 hs
    split_ifs at hs
    simp only [Flow.next.injEq] at hs
    subst hs
    refine ⟨by simp [h1], ?_⟩
    intro i
    simp only [List.mem_cons, h2]
    omega
  · intro n s1 hs
    split_ifs at hs
    simp only [Flow.ret.injEq] at hs
    obtain ⟨hn, hs⟩ := hs
    subst hs
    subst hn
    intro i
    simp only [List.mem_cons, h2, h1]
    omega

theorem barBuild_written (e a b : Int) (s : Frame) (i : Nat) :
    i ∈ (barBuild e a b s).written ↔ i = s.Ticks ∨ i ∈ s.written := by
  simp [barBuild, Frame.store]

theorem barInit_written (dt : Int) (a : Int) (s : Frame) (i : Nat) :
    i ∈ (barInit dt a s).written ↔ i = s.Ticks ∨ i ∈ s.written := by
  simp [barInit, Frame.store]

theorem barBuild_count (e a b : Int) (s : Frame)
    (h : s.tickCount = s.Ticks ∧ (∀ i, i ∈ s.written → i ≤ s.Ticks) ∧
      (∀ i, i < s.Ticks → i ∈ s.written)) : BarCount (barBuild e a b s) := by
  obtain ⟨h1, h2, h3⟩ := h
  refine ⟨h1, ?_, ?_, ?_⟩
  · intro i hi
    rcases (barBuild_written e a b s i).mp hi with hi | hi
    · simp [hi]
    · exact h2 i hi
  · intro i hi
    exact (barBuild_written e a b s i).mpr (Or.inr (h3 i hi))
  · intro _
    exact (barBuild_written e a b s _).mpr (Or.inl rfl)

theorem barTick_count (Start : Int) (NTicks : Int) (dt : Int) (e a b : Int) (s : Frame)
    (h : BarCount s) :
    (∀ s1, barTick Start NTicks dt e a b s = .next s1 → BarCount s1) ∧
    (∀ n s1, barTick Start NTicks dt e a b s = .ret n s1 →
      n = s1.Ticks ∧ ∀ i, i ∈ s1.written ↔ i ≤ s1.Ticks) := by
  obtain ⟨h1, h2, h3, h4⟩ := h
  have key : (barInit dt a (barAdvance s)).tickCount = (barInit dt a (barAdvance s)).Ticks ∧
      ∀ i, i ∈ (barInit dt a (barAdvance s)).written ↔ i ≤ (barInit dt a (barAdvance s)).Ticks := by
    simp only [barInit_tickCount, barInit_Ticks, barInit_written]
    unfold barAdvance
    by_cases hp : INT_MAX ≠ s.g.mPrevMinutes
    · rw [if_pos hp]
      dsimp only
      refine ⟨by simp [h1], ?_⟩
      intro i
      constructor
      · rintro (hi | hi)
        · omega
        · have := h2 i hi; omega
      · intro hi
        rcases Nat.lt_or_ge i (s.Ticks + 1) with hlt | hge
        · right
          rcases Nat.lt_or_ge i s.Ticks with hlt2 | hge2
          · exact h3 i hlt2
          · have : i = s.Ticks := by omega
            subst this
            exact h4 (fun e => hp e.symm)
        · left; omega
    · rw [if_neg hp]
      refine ⟨h1, ?_⟩
      intro i
      constructor
      · rintro (hi | hi)
        · omega
        · exact h2 i hi
      · intro hi
        rcases Nat.lt_or_ge i s.Ticks with hlt | hge
        · exact Or.inr (h3 i hlt)
        · left; omega
  unfold barTick
  constructor
  · intro s1 hs
    dsimp only at hs
    split_ifs at hs
    · simp only [Flow.next.injEq] at hs
      subst hs
      exact barBuild_count _ _ _ _ ⟨key.1, fun i hi => (key.2 i).mp hi,
        fun i hi => (key.2 i).mpr (by omega)⟩
    · simp only [Flow.next.injEq] at hs
      subst hs
      exact barBuild_count _ _ _ _ ⟨h1, h2, h3⟩
  · intro n s1 hs
    dsimp only at hs
    split_ifs at hs
    simp only [Flow.ret.injEq] at hs
    obtain ⟨hn, hs⟩ := hs
    subst hs
    subst hn
    exact ⟨key.1, key.2⟩

theorem historyLoop_raw_count (fs : FileSystem) (Symbol : String) (Start End : Int)
    (NTicks : Int) :
    ∀ (fuel : Nat) (s : Frame) (n : Int) (fr : Frame), RawCount s →
      historyLoop fs Symbol Start End 0 NTicks fuel s = .ok (n, fr) →
      fr.g.mCurrentTickNdx ≠ -1 → ∀ i, i ∈ fr.written ↔ (i : Int) < n := by
  intro fuel
  induction fuel with
  | zero => intro s n fr _ h; simp [historyLoop] at h
  | succ fuel ih =>
    intro s n fr hs h hcur
    unfold historyLoop at h
    split at h
    · rename_i s2 hb
      obtain ⟨s1, e1, e2, _, e4, _, hc⟩ := historyBody_cases fs Symbol Start End 0 NTicks s _ hb
      have hs1 : RawCount s1 := by
        unfold RawCount; rw [e1, e2, e4]; exact hs
      rcases hc with ⟨_, hfl⟩ | ⟨_, dt, ask, bid, ⟨_, hfl⟩ | ⟨hne, _⟩⟩
      · simp at hfl
      · exact ih s2.decrement n fr ((rawTick_count Start NTicks dt ask bid s1 hs1).1 s2 hfl.symm)
          h hcur
      · exact absurd rfl hne
    · rename_i n2 s2 hb
      simp only [Run.ok.injEq, Prod.mk.injEq] at h
      obtain ⟨hn, hfr⟩ := h
      subst hn
      subst hfr
      obtain ⟨s1, e1, e2, _, e4, _, hc⟩ := historyBody_cases fs Symbol Start End 0 NTicks s _ hb
      have hs1 : RawCount s1 := by
        unfold RawCount; rw [e1, e2, e4]; exact hs
      rcases hc with ⟨hm1, hfl⟩ | ⟨_, dt, ask, bid, ⟨_, hfl⟩ | ⟨hne, _⟩⟩
      · simp only [Flow.ret.injEq] at hfl
        rw [hfl.2] at hcur
        exact absurd hm1 hcur
      · exact (rawTick_count Start NTicks dt ask bid s1 hs1).2 _ _ hfl.symm
      · exact absurd rfl hne
    · simp at h
    · simp at h

theorem historyLoop_bar_count (fs : FileSystem) (Symbol : String) (Start End : Int)
    (TickMinutes NTicks : Int) (hmode : TickMinutes ≠ 0) :
    ∀ (fuel : Nat) (s : Frame) (n : Int) (fr : Frame), BarCount s →
      historyLoop fs Symbol Start End TickMinutes NTicks fuel s = .ok (n, fr) →
      fr.g.mCurrentTickNdx ≠ -1 → n = fr.Ticks ∧ ∀ i, i ∈ fr.written ↔ i ≤ fr.Ticks := by
  intro fuel
  induction fuel with
  | zero => intro s n fr _ h; simp [historyLoop] at h
  | succ fuel ih =>
    intro s n fr hs h hcur
    unfold historyLoop at h
    split at h
    · rename_i s2 hb
      obtain ⟨s1, e1, e2, _, e4, e5, hc⟩ :=
        historyBody_cases fs Symbol Start End TickMinutes NTicks s _ hb
      have hs1 : BarCount s1 := by
        unfold BarCount; rw [e1, e2, e4, e5]; exact hs
      rcases hc with ⟨_, hfl⟩ | ⟨_, dt, ask, bid, ⟨h0, _⟩ | ⟨_, e, _, hfl⟩⟩
      · simp at hfl
      · exact absurd h0 hmode
      · exact ih s2.decrement n fr ((barTick_count Start NTicks dt e ask bid s1 hs1).1 s2 hfl.symm)
          h hcur
    · rename_i n2 s2 hb
      simp only [Run.ok.injEq, Prod.mk.injEq] at h
      obtain ⟨hn, hfr⟩ := h
      subst hn
      subst hfr
      obtain ⟨s1, e1, e2, _, e4, e5, hc⟩ :=
        historyBody_cases fs Symbol Start End TickMinutes NTicks s _ hb
      have hs1 : BarCount s1 := by
        unfold BarCount; rw [e1, e2, e4, e5]; exact hs
      rcases hc with ⟨hm1, hfl⟩ | ⟨_, dt, ask, bid, ⟨h0, _⟩ | ⟨_, e, _, hfl⟩⟩
      · simp only [Flow.ret.injEq] at hfl
        rw [hfl.2] at hcur
        exact absurd hm1 hcur
      · exact absurd h0 hmode
      · exact (barTick_count Start NTicks dt e ask bid s1 hs1).2 _ _ hfl.symm
    · simp at h
    · simp at h

/-! ## Runs that return within their budget -/

/-- The decoder returns or faults within its budget. -/
theorem ReadCTraderDayV2_returns (file : DayFile) (m : SerialArrays) :
    ReadCTraderDayV2 file m ≠ .timeout := by
  cases file with
  | absent => simp [ReadCTraderDayV2]
  | unreadable => simp [ReadCTraderDayV2]
  | corrupt => simp [ReadCTraderDayV2]
  | inflated data =>
    by_cases h : data.length % 24 = 0
    · rw [ReadCTraderDayV2_whole data (data.length / 24) m (by omega)]
      simp
    · obtain ⟨f, hf⟩ := ReadCTraderDayV2_trailing_bytes data m h
      rw [hf]
      simp

theorem daySearch_returns_aux (fs : FileSystem) (Symbol : String) (Start : Int) :
    ∀ (fuel : Nat) (endRun : Int) (g : Globals), 1 ≤ fuel →
      ((endRun - (Start - 10 * msPerDay)) / msPerDay + 2).toNat ≤ fuel →
      daySearch fs Symbol Start fuel endRun g ≠ .timeout := by
  intro fuel
  induction fuel with
  | zero => intro endRun g h; omega
  | succ fuel ih =>
    intro endRun g _ h
    unfold daySearch
    split
    · rename_i hr
      split
      · split
        · simp
        · simp only [msPerDay] at h hr ih ⊢
          apply ih <;> omega
      · simp
      · rename_i ht
        exact absurd ht (ReadCTraderDayV2_returns _ _)
    · simp

/-- The day search returns or faults within its budget. -/
theorem daySearch_returns (fs : FileSystem) (Symbol : String) (Start endRun : Int)
    (g : Globals) :
    daySearch fs Symbol Start (daySearchBudget Start endRun) endRun g ≠ .timeout := by
  apply daySearch_returns_aux
  · unfold daySearchBudget; omega
  · unfold daySearchBudget
    simp only [msPerDay]
    omega

theorem reloadDay_returns (fs : FileSystem) (Symbol : String) (Start End : Int) (g : Globals) :
    reloadDay fs Symbol Start End g ≠ .timeout := by
  unfold reloadDay
  split
  · exact daySearch_returns fs Symbol Start _ g
  · simp

theorem historyTick_returns (Start : Int) (TickMinutes NTicks : Int) (s : Frame) :
    historyTick Start TickMinutes NTicks s ≠ .timeout := by
  unfold historyTick
  dsimp only
  split
  · simp
  · split
    · split
      · simp
      · split <;> simp
    · simp

theorem historyBody_returns (fs : FileSystem) (Symbol : String) (Start End : Int)
    (TickMinutes NTicks : Int) (s : Frame) :
    historyBody fs Symbol Start End TickMinutes NTicks s ≠ .timeout := by
  unfold historyBody
  split
  · exact historyTick_returns _ _ _ _
  · simp
  · rename_i h
    exact absurd h (reloadDay_returns _ _ _ _ _)

theorem rawTick_next (Start : Int) (NTicks : Int) (dt : Int) (ask bid : Nat) (s s1 : Frame)
    (h : rawTick Start NTicks dt ask bid s = .next s1) :
    s1.tickCount = s.tickCount + 1 ∧ s1.tickCount < NTicks := by
  unfold rawTick at h
  simp only [Frame.store] at h
  split_ifs at h with hc
  simp only [Flow.next.injEq] at h
  subst h
  simp only [not_or, not_le, ge_iff_le] at hc
  exact ⟨rfl, hc.1⟩

/-- In raw tick mode the loop returns or faults within `NTicks - tickCount` passes, and
within one pass when the count has reached `NTicks`. -/
theorem historyLoop_raw_returns (fs : FileSystem) (Symbol : String) (Start End : Int)
    (NTicks : Int) :
    ∀ (fuel : Nat) (s : Frame), (NTicks - s.tickCount).toNat < fuel →
      historyLoop fs Symbol Start End 0 NTicks fuel s ≠ .timeout := by
  intro fuel
  induction fuel with
  | zero => intro s h; omega
  | succ fuel ih =>
    intro s h
    unfold historyLoop
    split
    · rename_i s2 hb
      obtain ⟨s1, e1, _, _, _, _, hc⟩ := historyBody_cases fs Symbol Start End 0 NTicks s _ hb
      rcases hc with ⟨_, hfl⟩ | ⟨_, dt, ask, bid, ⟨_, hfl⟩ | ⟨hne, _⟩⟩
      · simp at hfl
      · obtain ⟨a1, a2⟩ := rawTick_next Start NTicks dt ask bid s1 s2 hfl.symm
        apply ih
        simp only [decrement_tickCount]
        omega
      · exact absurd rfl hne
    · simp
    · simp
    · rename_i hb
      exact absurd hb (historyBody_returns _ _ _ _ _ _ _)

/-- In raw tick mode a call returns or faults within `NTicks` passes of the loop, and
within one pass when `NTicks` is not positive. -/
theorem raw_mode_returns (fs : FileSystem) (fuel : Nat) (Symbol : String) (Start End : Int)
    (NTicks : Int) (Ticks : Nat → T6) (g : Globals) (h : NTicks.toNat < fuel) :
    BrokerHistory2 fs fuel Symbol Start End 0 NTicks Ticks g ≠ .timeout := by
  unfold BrokerHistory2
  apply historyLoop_raw_returns
  simpa using h

/-! ## The bound on the returned count -/

theorem historyLoop_raw_bound (fs : FileSystem) (Symbol : String) (Start End : Int)
    (NTicks : Int) :
    ∀ (fuel : Nat) (s : Frame) (n : Int) (fr : Frame), RawCount s → s.tickCount < NTicks →
      historyLoop fs Symbol Start End 0 NTicks fuel s = .ok (n, fr) →
      n ≤ NTicks ∧ ∀ i, i ∈ fr.written → (i : Int) < NTicks := by
  intro fuel
  induction fuel with
  | zero => intro s n fr _ _ h; simp [historyLoop] at h
  | succ fuel ih =>
    intro s n fr hs hlt h
    unfold historyLoop at h
    split at h
    · rename_i s2 hb
      obtain ⟨s1, e1, e2, _, e4, _, hc⟩ := historyBody_cases fs Symbol Start End 0 NTicks s _ hb
      have hs1 : RawCount s1 := by
        unfold RawCount; rw [e1, e2, e4]; exact hs
      rcases hc with ⟨_, hfl⟩ | ⟨_, dt, ask, bid, ⟨_, hfl⟩ | ⟨hne, _⟩⟩
      · simp at hfl
      · exact ih s2.decrement n fr ((rawTick_count Start NTicks dt ask bid s1 hs1).1 s2 hfl.symm)
          (rawTick_next Start NTicks dt ask bid s1 s2 hfl.symm).2 h
      · exact absurd rfl hne
    · rename_i n2 s2 hb
      simp only [Run.ok.injEq, Prod.mk.injEq] at h
      obtain ⟨hn, hfr⟩ := h
      subst hn
      subst hfr
      obtain ⟨s1, e1, e2, _, e4, _, hc⟩ := historyBody_cases fs Symbol Start End 0 NTicks s _ hb
      have hs1 : RawCount s1 := by
        unfold RawCount; rw [e1, e2, e4]; exact hs
      rcases hc with ⟨hm1, hfl⟩ | ⟨_, dt, ask, bid, ⟨_, hfl⟩ | ⟨hne, _⟩⟩
      · simp only [Flow.ret.injEq] at hfl
        obtain ⟨hn, hfr⟩ := hfl
        have hlt1 : s1.tickCount < NTicks := by rw [e1]; exact hlt
        have hc1 := hs1.1
        have hw1 := hs1.2
        rw [hfr, hn]
        refine ⟨by omega, ?_⟩
        intro i hi
        have := (hw1 i).mp hi
        omega
      · have hw := (rawTick_count Start NTicks dt ask bid s1 hs1).2 _ _ hfl.symm
        have hn : n2 = s1.tickCount + 1 := by
          have hfl2 := hfl.symm
          unfold rawTick at hfl2
          simp only [Frame.store] at hfl2
          split_ifs at hfl2
          simp only [Flow.ret.injEq] at hfl2
          exact hfl2.1.symm
        rw [e1] at hn
        refine ⟨by omega, ?_⟩
        intro i hi
        have := (hw i).mp hi
        omega
      · exact absurd rfl hne
    · simp at h
    · simp at h

theorem barTick_bound (Start : Int) (NTicks : Int) (dt : Int) (e a b : Int) (s : Frame)
    (he : e ≤ INT_MAX) (hN : 0 ≤ NTicks)
    (h : s.tickCount < NTicks ∨ (s.tickCount = 0 ∧ s.g.mPrevMinutes = INT_MAX)) :
    (∀ s1, barTick Start NTicks dt e a b s = .next s1 →
      s1.tickCount < NTicks ∨ (s1.tickCount = 0 ∧ s1.g.mPrevMinutes = INT_MAX)) ∧
    (∀ n s1, barTick Start NTicks dt e a b s = .ret n s1 → n ≤ NTicks ∧ s1.tickCount = n) := by
  have hadv : (barAdvance s).tickCount ≤ NTicks := by
    rw [barAdvance_tickCount]
    split_ifs with hp
    · rcases h with h | h
      · omega
      · exact absurd h.2.symm hp
    · rcases h with h | h <;> omega
  unfold barTick
  constructor
  · intro s1 hs
    dsimp only at hs
    split_ifs at hs with h1 h2
    · simp only [Flow.next.injEq] at hs
      subst hs
      simp only [barInit_tickCount, not_or, not_le, ge_iff_le] at h2
      left
      simpa using h2.1
    · simp only [Flow.next.injEq] at hs
      subst hs
      rcases h with h | h
      · left; simpa using h
      · right
        refine ⟨by simpa using h.1, ?_⟩
        simp only [barBuild_g]
        have := h.2
        omega
  · intro n s1 hs
    dsimp only at hs
    split_ifs at hs
    simp only [Flow.ret.injEq] at hs
    obtain ⟨hn, hs⟩ := hs
    subst hs
    subst hn
    exact ⟨by simpa using hadv, rfl⟩

theorem historyLoop_bar_bound (fs : FileSystem) (Symbol : String) (Start End : Int)
    (TickMinutes NTicks : Int) (hmode : TickMinutes ≠ 0) (hN : 0 ≤ NTicks) :
    ∀ (fuel : Nat) (s : Frame) (n : Int) (fr : Frame),
      (s.tickCount < NTicks ∨ (s.tickCount = 0 ∧ s.g.mPrevMinutes = INT_MAX)) →
      historyLoop fs Symbol Start End TickMinutes NTicks fuel s = .ok (n, fr) → n ≤ NTicks := by
  intro fuel
  induction fuel with
  | zero => intro s n fr _ h; simp [historyLoop] at h
  | succ fuel ih =>
    intro s n fr hs h
    unfold historyLoop at h
    split at h
    · rename_i s2 hb
      obtain ⟨s1, e1, _, _, _, e5, hc⟩ :=
        historyBody_cases fs Symbol Start End TickMinutes NTicks s _ hb
      rcases hc with ⟨_, hfl⟩ | ⟨_, dt, ask, bid, ⟨h0, _⟩ | ⟨_, e, he, hfl⟩⟩
      · simp at hfl
      · exact absurd h0 hmode
      · exact ih s2.decrement n fr
          ((barTick_bound Start NTicks dt e ask bid s1 he hN (by rw [e1, e5]; exact hs)).1 s2
            hfl.symm) h
    · rename_i n2 s2 hb
      simp only [Run.ok.injEq, Prod.mk.injEq] at h
      obtain ⟨hn, hfr⟩ := h
      subst hn
      subst hfr
      obtain ⟨s1, e1, _, _, _, e5, hc⟩ :=
        historyBody_cases fs Symbol Start End TickMinutes NTicks s _ hb
      rcases hc with ⟨hm1, hfl⟩ | ⟨_, dt, ask, bid, ⟨h0, _⟩ | ⟨_, e, he, hfl⟩⟩
      · simp only [Flow.ret.injEq] at hfl
        omega
      · exact absurd h0 hmode
      · exact ((barTick_bound Start NTicks dt e ask bid s1 he hN
          (by rw [e1, e5]; exact hs)).2 _ _ hfl.symm).1
    · simp at h
    · simp at h

/-- The returned count is at most `NTicks` when `NTicks` is positive, and in bar mode
when `NTicks` is zero; in raw tick mode with `NTicks` positive every slot written has an
index below `NTicks`. -/
theorem returned_count_le (fs : FileSystem) (fuel : Nat) (Symbol : String)
    (Start End : Int) (TickMinutes NTicks : Int) (Ticks : Nat → T6) (g : Globals)
    (n : Int) (fr : Frame)
    (hN : 1 ≤ NTicks ∨ (TickMinutes ≠ 0 ∧ 0 ≤ NTicks))
    (h : BrokerHistory2 fs fuel Symbol Start End TickMinutes NTicks Ticks g = .ok (n, fr)) :
    n ≤ NTicks ∧ (TickMinutes = 0 → ∀ i, i ∈ fr.written → (i : Int) < NTicks) := by
  unfold BrokerHistory2 at h
  by_cases hm : TickMinutes = 0
  · subst hm
    have h1 : 1 ≤ NTicks := by
      rcases hN with h1 | h1
      · exact h1
      · exact absurd rfl h1.1
    have := historyLoop_raw_bound fs Symbol Start End NTicks fuel _ n fr
      ⟨rfl, fun i => by simp⟩ (by simpa using h1) h
    exact ⟨this.1, fun _ => this.2⟩
  · have h0 : 0 ≤ NTicks := by
      rcases hN with h1 | h1
      · omega
      · exact h1.2
    exact ⟨historyLoop_bar_bound fs Symbol Start End TickMinutes NTicks hm h0 fuel _ n fr
      (Or.inr ⟨rfl, rfl⟩) h, fun h => absurd h hm⟩

/-! ## A bar mode call that does not return -/

theorem daySearchBudget_pos (Start endRun : Int) :
    ∃ n, daySearchBudget Start endRun = n + 1 :=
  ⟨_, rfl⟩

/-- The day search stops at a day that decodes. -/
theorem daySearch_hit (fs : FileSystem) (Symbol : String) (Start : Int) (fuel : Nat)
    (endRun : Int) (g : Globals) (m : SerialArrays)
    (hrange : endRun ≥ Start - 10 * msPerDay)
    (hread : ReadCTraderDayV2 (fs (g.mCachePath ++ "\\" ++ Symbol ++ "\\t1") (endRun / msPerDay))
      g.mSerialArrays = .ok ("", m)) :
    daySearch fs Symbol Start (fuel + 1) endRun g =
      .ok { g with mSerialArrays := m, mCurrentTickNdx := (m.Tick2dt.length : Int) - 1 } := by
  unfold daySearch
  simp only [hrange, if_true, hread]

/-- The day search goes on to the day before when the day has no file. -/
theorem daySearch_absent (fs : FileSystem) (Symbol : String) (Start : Int) (fuel : Nat)
    (endRun : Int) (g : Globals)
    (hrange : endRun ≥ Start - 10 * msPerDay)
    (hfile : fs (g.mCachePath ++ "\\" ++ Symbol ++ "\\t1") (endRun / msPerDay) = .absent) :
    daySearch fs Symbol Start (fuel + 1) endRun g =
      daySearch fs Symbol Start fuel (endRun - msPerDay) g := by
  conv_lhs => unfold daySearch
  simp only [hrange, if_true, hfile, ReadCTraderDayV2]
  rw [if_neg (by decide)]

theorem oneTickDay_read (path : String) (m : SerialArrays) :
    ReadCTraderDayV2 (oneTickDay path 25570) m =
      .ok ("", { Tick2dt := [86401000], Tick2Bid := [5], Tick2Ask := [7] }) := by
  have h := ReadCTraderDayV2_whole (encodeRecord 86401000 5 7) 1 m (by decide)
  have e : oneTickDay path 25570 = .inflated (encodeRecord 86401000 5 7) := by
    simp [oneTickDay]
  rw [e, h]
  decide

theorem caught_step (s : Frame) (h : Caught s) :
    ∃ s1, historyBody oneTickDay "EURUSD" 0 (25571 * msPerDay) 1 3 s = .ok (.next s1) ∧
      Caught s1.decrement := by
  obtain ⟨hc, hf, hp⟩ := h
  obtain ⟨n, hn⟩ := daySearchBudget_pos 0 (25571 * msPerDay - msPerDay)
  have hr : reloadDay oneTickDay "EURUSD" 0 (25571 * msPerDay) s.g =
      .ok { s.g with mSerialArrays := { Tick2dt := [86401000], Tick2Bid := [5], Tick2Ask := [7] },
                     mCurrentTickNdx := ((1 : Nat) : Int) - 1 } := by
    unfold reloadDay
    simp only [hc, hf, Bool.false_eq_true, if_false, hn, show ((-1 : Int) < 0) from by decide,
      if_true]
    rw [daySearch_hit oneTickDay "EURUSD" 0 n _ s.g _ (by decide)
      (by rw [show (25571 * msPerDay - msPerDay) / msPerDay = 25570 by decide]
          exact oneTickDay_read _ _)]
    simp [hf]
  unfold historyBody
  rw [hr]
  dsimp only
  rw [historyTick_bar 0 1 3 _ 0 (by decide) (by decide) (by simp) (by simp) (by simp) (by simp)]
  rw [barTick_same _ _ _ _ _ _ _ (by simp [Globals.bucketAt, hp]; decide)]
  exact ⟨_, rfl, by simp [Caught, hp, Globals.bucketAt]; decide⟩

theorem caught_forever :
    ∀ (fuel : Nat) (s : Frame), Caught s →
      historyLoop oneTickDay "EURUSD" 0 (25571 * msPerDay) 1 3 fuel s = .timeout := by
  intro fuel
  induction fuel with
  | zero => intro s _; rfl
  | succ fuel ih =>
    intro s hs
    obtain ⟨s1, h1, h2⟩ := caught_step s hs
    unfold historyLoop
    rw [h1]
    exact ih _ h2

theorem first_pass_caught :
    ∃ s1, historyBody oneTickDay "EURUSD" 0 (25571 * msPerDay) 1 3
        { g := { afterLogin with mPrevMinutes := INT_MAX }, tickCount := 0, Ticks := 0,
          buf := zeroTicks, written := [] } = .ok (.next s1) ∧ Caught s1.decrement := by
  have hr : reloadDay oneTickDay "EURUSD" 0 (25571 * msPerDay)
      { afterLogin with mPrevMinutes := INT_MAX } =
      .ok { afterLogin with
        mPrevMinutes := INT_MAX
        mSerialArrays := { Tick2dt := [86401000], Tick2Bid := [5], Tick2Ask := [7] }
        mCurrentTickNdx := 0 } := by
    decide
  unfold historyBody
  rw [hr]
  dsimp only
  rw [historyTick_bar 0 1 3 _ 0 (by decide) (by decide) (by rfl) (by decide) (by decide)
    (by decide)]
  rw [barTick_new _ _ _ _ _ _ _ (by decide) (by decide)]
  exact ⟨_, rfl, by unfold Caught; decide⟩

theorem ReadCTraderDayV2_unavailable (file : DayFile) (m : SerialArrays)
    (h : file.unavailable = true) :
    ∃ err, err ≠ "" ∧ ReadCTraderDayV2 file m = .ok (err, m) := by
  cases file with
  | absent => exact ⟨_, by decide, rfl⟩
  | unreadable => exact ⟨_, by decide, rfl⟩
  | corrupt => exact ⟨_, by decide, rfl⟩
  | inflated data => simp [DayFile.unavailable] at h

theorem ReadCTraderDayV2_decoded (data : List Nat) (m : SerialArrays)
    (h : data.length % 24 = 0) :
    ReadCTraderDayV2 (.inflated data) m = .ok ("", decodedDay data) :=
  ReadCTraderDayV2_whole data (data.length / 24) m (by omega)

theorem ReadCTraderDayV2_ok_cases (file : DayFile) (m : SerialArrays) (err : String)
    (m1 : SerialArrays) (h : ReadCTraderDayV2 file m = .ok (err, m1)) :
    (err ≠ "" ∧ m1 = m ∧ file.unavailable = true) ∨
    (err = "" ∧ ∃ data, file = .inflated data ∧ data.length % 24 = 0 ∧ m1 = decodedDay data) := by
  cases file with
  | absent =>
    simp only [ReadCTraderDayV2, Run.ok.injEq, Prod.mk.injEq] at h
    exact Or.inl ⟨by rw [← h.1]; decide, h.2.symm, rfl⟩
  | unreadable =>
    simp only [ReadCTraderDayV2, Run.ok.injEq, Prod.mk.injEq] at h
    exact Or.inl ⟨by rw [← h.1]; decide, h.2.symm, rfl⟩
  | corrupt =>
    simp only [ReadCTraderDayV2, Run.ok.injEq, Prod.mk.injEq] at h
    exact Or.inl ⟨by rw [← h.1]; decide, h.2.symm, rfl⟩
  | inflated data =>
    right
    by_cases hr : data.length % 24 = 0
    · rw [ReadCTraderDayV2_decoded data m hr] at h
      simp only [Run.ok.injEq, Prod.mk.injEq] at h
      exact ⟨h.1.symm, data, rfl, hr, h.2.symm⟩
    · obtain ⟨f, hf⟩ := ReadCTraderDayV2_trailing_bytes data m hr
      rw [hf] at h
      simp at h

/-- The day search skips the days without a usable file and stops at the first day that
decodes. -/
theorem daySearch_skip (fs : FileSystem) (Symbol : String) (Start : Int) (data : List Nat)
    (hdata : data.length % 24 = 0) :
    ∀ (k fuel : Nat) (endRun : Int) (g : Globals), k < fuel →
      endRun - k * msPerDay ≥ Start - 10 * msPerDay →
      (∀ j : Nat, j < k → (fs (g.mCachePath ++ "\\" ++ Symbol ++ "\\t1")
        ((endRun - j * msPerDay) / msPerDay)).unavailable = true) →
      fs (g.mCachePath ++ "\\" ++ Symbol ++ "\\t1") ((endRun - k * msPerDay) / msPerDay) =
        .inflated data →
      daySearch fs Symbol Start fuel endRun g =
        .ok { g with mSerialArrays := decodedDay data
                     mCurrentTickNdx := ((data.length / 24 : Nat) : Int) - 1 } := by
  intro k
  induction k with
  | zero =>
    intro fuel endRun g hf hr _ hfile
    obtain ⟨fuel, rfl⟩ : ∃ n, fuel = n + 1 := ⟨fuel - 1, by omega⟩
    simp only [Nat.cast_zero, zero_mul, sub_zero] at hr hfile
    rw [daySearch_hit fs Symbol Start fuel endRun g (decodedDay data) hr
      (by rw [hfile]; exact ReadCTraderDayV2_decoded data _ hdata)]
    simp [decodedDay]
  | succ k ih =>
    intro fuel endRun g hf hr hskip hfile
    obtain ⟨fuel, rfl⟩ : ∃ n, fuel = n + 1 := ⟨fuel - 1, by omega⟩
    have h0 := hskip 0 (by omega)
    simp only [Nat.cast_zero, zero_mul, sub_zero] at h0
    obtain ⟨err, herr, hread⟩ := ReadCTraderDayV2_unavailable _ g.mSerialArrays h0
    have hr0 : endRun ≥ Start - 10 * msPerDay := by
      simp only [msPerDay] at hr ⊢
      push_cast at hr
      omega
    have hstep : daySearch fs Symbol Start (fuel + 1) endRun g =
        daySearch fs Symbol Start fuel (endRun - msPerDay) g := by
      conv_lhs => unfold daySearch
      simp only [hr0, if_true, hread, if_neg (Ne.symm herr)]
    rw [hstep]
    have e : ∀ j : Nat, endRun - msPerDay - j * msPerDay = endRun - ((j + 1 : Nat) : Int) * msPerDay := by
      intro j; push_cast; ring
    apply ih fuel (endRun - msPerDay) g (by omega)
    · rw [e]; exact hr
    · intro j hj
      rw [e]
      exact hskip (j + 1) (by omega)
    · rw [e]; exact hfile

/-- The day search gives up when no day down to `Start - 10` has a usable file. -/
theorem daySearch_none (fs : FileSystem) (Symbol : String) (Start : Int) :
    ∀ (fuel : Nat) (endRun : Int) (g : Globals), 1 ≤ fuel →
      ((endRun - (Start - 10 * msPerDay)) / msPerDay + 2).toNat ≤ fuel →
      (∀ j : Nat, endRun - j * msPerDay ≥ Start - 10 * msPerDay →
        (fs (g.mCachePath ++ "\\" ++ Symbol ++ "\\t1")
          ((endRun - j * msPerDay) / msPerDay)).unavailable = true) →
      daySearch fs Symbol Start fuel endRun g = .ok g := by
  intro fuel
  induction fuel with
  | zero => intro endRun g h; omega
  | succ fuel ih =>
    intro endRun g _ hf hall
    by_cases hr : endRun ≥ Start - 10 * msPerDay
    · have h0 := hall 0 (by simpa using hr)
      simp only [Nat.cast_zero, zero_mul, sub_zero] at h0
      obtain ⟨err, herr, hread⟩ := ReadCTraderDayV2_unavailable _ g.mSerialArrays h0
      have hstep : daySearch fs Symbol Start (fuel + 1) endRun g =
          daySearch fs Symbol Start fuel (endRun - msPerDay) g := by
        conv_lhs => unfold daySearch
        simp only [hr, if_true, hread, if_neg (Ne.symm herr)]
      rw [hstep]
      have e : ∀ j : Nat, endRun - msPerDay - j * msPerDay =
          endRun - ((j + 1 : Nat) : Int) * msPerDay := by
        intro j; push_cast; ring
      apply ih
      · simp only [msPerDay] at hf hr ⊢; omega
      · simp only [msPerDay] at hf hr ⊢; omega
      · intro j hj
        rw [e] at hj ⊢
        exact hall (j + 1) hj
    · unfold daySearch
      simp only [hr, if_false]

theorem rawTick_frame (Start : Int) (NTicks : Int) (dt : Int) (ask bid : Nat) (s : Frame) :
    (rawTick Start NTicks dt ask bid s).frame.g = s.g := by
  unfold rawTick
  simp only [Frame.store]
  split_ifs <;> rfl

theorem barTick_frame (Start : Int) (NTicks : Int) (dt : Int) (e a b : Int) (s : Frame) :
    (barTick Start NTicks dt e a b s).frame.g.mCurrentTickNdx = s.g.mCurrentTickNdx ∧
    (barTick Start NTicks dt e a b s).frame.g.mSerialArrays = s.g.mSerialArrays := by
  unfold barTick
  dsimp only
  split_ifs <;> simp [Flow.frame, barAdvance_g]

theorem daySearch_cursor (fs : FileSystem) (Symbol : String) (Start : Int)
    (hfs : WholeRecords fs) :
    ∀ (fuel : Nat) (endRun : Int) (g g1 : Globals), CursorOK g →
      (∀ f, daySearch fs Symbol Start fuel endRun g ≠ .fault f) ∧
      (daySearch fs Symbol Start fuel endRun g = .ok g1 → CursorOK g1) := by
  intro fuel
  induction fuel with
  | zero => intro endRun g g1 _; simp [daySearch]
  | succ fuel ih =>
    intro endRun g g1 hg
    unfold daySearch
    split
    · cases hread : ReadCTraderDayV2 (fs (g.mCachePath ++ "\\" ++ Symbol ++ "\\t1")
          (endRun / msPerDay)) g.mSerialArrays with
      | ok p =>
        obtain ⟨err, m⟩ := p
        rcases ReadCTraderDayV2_ok_cases _ _ err m hread with ⟨h1, h2, _⟩ | ⟨h1, data, _, _, h2⟩
        · simp only [if_neg (Ne.symm h1)]
          subst h2
          exact ih (endRun - msPerDay) _ g1 hg
        · subst h1
          subst h2
          simp only [if_true, Run.ok.injEq]
          refine ⟨fun f => by simp, fun h => ?_⟩
          subst h
          simp only [CursorOK, decodedDay, List.length_map, List.length_range]
          omega
      | fault f =>
        exfalso
        cases hfile : fs (g.mCachePath ++ "\\" ++ Symbol ++ "\\t1") (endRun / msPerDay) with
        | absent => rw [hfile] at hread; simp [ReadCTraderDayV2] at hread
        | unreadable => rw [hfile] at hread; simp [ReadCTraderDayV2] at hread
        | corrupt => rw [hfile] at hread; simp [ReadCTraderDayV2] at hread
        | inflated data =>
          rw [hfile, ReadCTraderDayV2_decoded data _ (hfs _ _ _ hfile)] at hread
          simp at hread
      | timeout => exact absurd hread (ReadCTraderDayV2_returns _ _)
    · simp only [Run.ok.injEq]
      exact ⟨fun f => by simp, fun h => h ▸ hg⟩

theorem reloadDay_cursor (fs : FileSystem) (Symbol : String) (Start End : Int)
    (hfs : WholeRecords fs) (g : Globals) (hg : CursorOK g) :
    ∃ g1, reloadDay fs Symbol Start End g = .ok g1 ∧ CursorOK g1 := by
  cases h : reloadDay fs Symbol Start End g with
  | ok g1 =>
    refine ⟨g1, rfl, ?_⟩
    unfold reloadDay at h
    split at h
    · exact (daySearch_cursor fs Symbol Start hfs _ _ g g1 hg).2 h
    · simp only [Run.ok.injEq] at h
      exact h ▸ hg
  | fault f =>
    exfalso
    unfold reloadDay at h
    split at h
    · exact (daySearch_cursor fs Symbol Start hfs _ _ g g hg).1 f h
    · simp at h
  | timeout => exact absurd h (reloadDay_returns _ _ _ _ _)

theorem historyTick_cursor (Start : Int) (TickMinutes NTicks : Int) (s : Frame)
    (hg : CursorOK s.g) :
    (∀ fl, historyTick Start TickMinutes NTicks s = .ok fl →
      CursorOK fl.frame.g ∧ (∀ s1, fl = .next s1 → 0 ≤ s1.g.mCurrentTickNdx)) ∧
    (∀ f, historyTick Start TickMinutes NTicks s = .fault f → f = .divideByZero) := by
  obtain ⟨g1, g2, g3, g4⟩ := hg
  constructor
  · intro fl h
    rcases historyTick_cases Start TickMinutes NTicks s fl h with
      ⟨_, hfl⟩ | ⟨hne, dt, ask, bid, ⟨_, hfl⟩ | ⟨_, e, _, hfl⟩⟩
    · subst hfl
      exact ⟨⟨g1, g2, g3, g4⟩, fun s1 h1 => by simp at h1⟩
    · have hgf := rawTick_frame Start NTicks dt ask bid
        { s with g := { s.g with mIs1stAfterBrokerLogin := false } }
      rw [← hfl] at hgf
      refine ⟨by rw [hgf]; exact ⟨g1, g2, g3, g4⟩, ?_⟩
      intro s1 h1
      subst h1
      simp only [Flow.frame] at hgf
      rw [hgf]
      show 0 ≤ s.g.mCurrentTickNdx
      omega
    · have hgf := barTick_frame Start NTicks dt e ask bid
        { s with g := { s.g with mIs1stAfterBrokerLogin := false } }
      rw [← hfl] at hgf
      refine ⟨?_, ?_⟩
      · unfold CursorOK
        rw [hgf.1, hgf.2]
        exact ⟨g1, g2, g3, g4⟩
      · intro s1 h1
        subst h1
        simp only [Flow.frame] at hgf
        rw [hgf.1]
        show 0 ≤ s.g.mCurrentTickNdx
        omega
  · intro f h
    by_cases hc : s.g.mCurrentTickNdx = -1
    · simp [historyTick, hc] at h
    · obtain ⟨c, hcn⟩ : ∃ c : Nat, s.g.mCurrentTickNdx = c := ⟨s.g.mCurrentTickNdx.toNat, by omega⟩
      have h1 : c < s.g.mSerialArrays.Tick2dt.length := by omega
      have h2 : c < s.g.mSerialArrays.Tick2Ask.length := by omega
      have h3 : c < s.g.mSerialArrays.Tick2Bid.length := by omega
      have hc1 : ¬ (-1 = (c : Int)) := by omega
      unfold historyTick at h
      simp only [hcn, hc1, if_false, vecAt_ok _ c h1, vecAt_ok _ c h2, vecAt_ok _ c h3] at h
      split_ifs at h
      · simp only [Run.fault.injEq] at h
        exact h.symm

theorem historyBody_cursor (fs : FileSystem) (Symbol : String) (Start End : Int)
    (TickMinutes NTicks : Int) (hfs : WholeRecords fs) (s : Frame) (hg : CursorOK s.g) :
    (∀ fl, historyBody fs Symbol Start End TickMinutes NTicks s = .ok fl →
      CursorOK fl.frame.g ∧ (∀ s1, fl = .next s1 → 0 ≤ s1.g.mCurrentTickNdx)) ∧
    (∀ f, historyBody fs Symbol Start End TickMinutes NTicks s = .fault f →
      f = .divideByZero) := by
  obtain ⟨g1, hr, hg1⟩ := reloadDay_cursor fs Symbol Start End hfs s.g hg
  unfold historyBody
  rw [hr]
  exact historyTick_cursor Start TickMinutes NTicks { s with g := g1 } hg1

theorem decrement_cursor (s : Frame) (hg : CursorOK s.g) (h0 : 0 ≤ s.g.mCurrentTickNdx) :
    CursorOK s.decrement.g := by
  obtain ⟨g1, g2, g3, g4⟩ := hg
  simp only [CursorOK, decrement_g]
  omega

theorem historyPasses_cursor (fs : FileSystem) (Symbol : String) (Start End : Int)
    (TickMinutes NTicks : Int) (hfs : WholeRecords fs) :
    ∀ (n : Nat) (s : Frame), CursorOK s.g →
      PassOK (historyPasses fs Symbol Start End TickMinutes NTicks n s) := by
  intro n
  induction n with
  | zero => intro s hg; exact hg
  | succ n ih =>
    intro s hg
    have hb := historyBody_cursor fs Symbol Start End TickMinutes NTicks hfs s hg
    unfold historyPasses
    cases h : historyBody fs Symbol Start End TickMinutes NTicks s with
    | ok fl =>
      cases fl with
      | next s1 =>
        have := hb.1 _ h
        exact ih _ (decrement_cursor s1 this.1 (this.2 s1 rfl))
      | ret k s1 => exact (hb.1 _ h).1
    | fault f => exact hb.2 f h
    | timeout => exact absurd h (historyBody_returns _ _ _ _ _ _ _)

theorem historyLoop_cursor (fs : FileSystem) (Symbol : String) (Start End : Int)
    (TickMinutes NTicks : Int) (hfs : WholeRecords fs) :
    ∀ (fuel : Nat) (s : Frame) (k : Int) (fr : Frame), CursorOK s.g →
      historyLoop fs Symbol Start End TickMinutes NTicks fuel s = .ok (k, fr) →
      CursorOK fr.g := by
  intro fuel
  induction fuel with
  | zero => intro s k fr _ h; simp [historyLoop] at h
  | succ fuel ih =>
    intro s k fr hg h
    have hb := historyBody_cursor fs Symbol Start End TickMinutes NTicks hfs s hg
    unfold historyLoop at h
    split at h
    · rename_i s1 hs1
      have := hb.1 _ hs1
      exact ih _ k fr (decrement_cursor s1 this.1 (this.2 s1 rfl)) h
    · rename_i k1 s1 hs1
      simp only [Run.ok.injEq, Prod.mk.injEq] at h
      rw [← h.2]
      exact (hb.1 _ hs1).1
    · simp at h
    · simp at h

theorem Session.cursorOK (fs : FileSystem) (hfs : WholeRecords fs) (g : Globals)
    (h : Session fs g) : CursorOK g := by
  induction h with
  | login APPDATA isDirectory user Password g0 =>
    simp only [CursorOK, BrokerLogin]
    omega
  | call g fuel Symbol Start End TickMinutes NTicks Ticks n fr _ hcall ih =>
    unfold BrokerHistory2 at hcall
    exact historyLoop_cursor fs Symbol Start End TickMinutes NTicks hfs fuel _ n fr
      (by simpa [CursorOK] using ih) hcall

theorem historyLoop_fault (fs : FileSystem) (Symbol : String) (Start End : Int)
    (TickMinutes NTicks : Int) (hfs : WholeRecords fs) :
    ∀ (fuel : Nat) (s : Frame) (f : Fault), CursorOK s.g →
      historyLoop fs Symbol Start End TickMinutes NTicks fuel s = .fault f →
      f = .divideByZero := by
  intro fuel
  induction fuel with
  | zero => intro s f _ h; simp [historyLoop] at h
  | succ fuel ih =>
    intro s f hg h
    have hb := historyBody_cursor fs Symbol Start End TickMinutes NTicks hfs s hg
    unfold historyLoop at h
    split at h
    · rename_i s1 hs1
      have := hb.1 _ hs1
      exact ih _ f (decrement_cursor s1 this.1 (this.2 s1 rfl)) h
    · simp at h
    · rename_i f1 hf1
      simp only [Run.fault.injEq] at h
      rw [← h]
      exact hb.2 f1 hf1
    · simp at h

theorem twoTickDay_whole : WholeRecords twoTickDay := by
  intro path day data h
  unfold twoTickDay at h
  split at h
  · simp only [DayFile.inflated.injEq] at h
    subst h
    decide
  · simp at h

theorem historyPasses_add (fs : FileSystem) (Symbol : String) (Start End : Int)
    (TickMinutes NTicks : Int) (b : Nat) :
    ∀ (a : Nat) (s s1 : Frame),
      historyPasses fs Symbol Start End TickMinutes NTicks a s = .ok (.next s1) →
      historyPasses fs Symbol Start End TickMinutes NTicks (a + b) s =
        historyPasses fs Symbol Start End TickMinutes NTicks b s1 := by
  intro a
  induction a with
  | zero =>
    intro s s1 h
    simp only [historyPasses, Run.ok.injEq, Flow.next.injEq] at h
    subst h
    simp
  | succ a ih =>
    intro s s1 h
    have e : a + 1 + b = (a + b) + 1 := by omega
    rw [e]
    rw [historyPasses] at h ⊢
    cases hb : historyBody fs Symbol Start End TickMinutes NTicks s with
    | ok fl =>
      cases fl with
      | next s2 =>
        rw [hb] at h
        simp only at h ⊢
        exact ih _ _ h
      | ret n s2 => rw [hb] at h; simp at h
    | fault f => rw [hb] at h; simp at h
    | timeout => rw [hb] at h; simp at h

theorem barTick_frame_session (Start : Int) (NTicks : Int) (dt : Int) (e a b : Int)
    (s : Frame) :
    (barTick Start NTicks dt e a b s).frame.g.mCachePath = s.g.mCachePath ∧
    (barTick Start NTicks dt e a b s).frame.g.mIs1stAfterBrokerLogin =
      s.g.mIs1stAfterBrokerLogin := by
  unfold barTick
  dsimp only
  split_ifs <;> simp [Flow.frame, barAdvance_g]

theorem historyBody_next_session (fs : FileSystem) (Symbol : String) (Start End : Int)
    (TickMinutes NTicks : Int) (s s1 : Frame)
    (h : historyBody fs Symbol Start End TickMinutes NTicks s = .ok (.next s1)) :
    s1.g.mCachePath = s.g.mCachePath ∧ s1.g.mIs1stAfterBrokerLogin = false := by
  unfold historyBody at h
  split at h
  · rename_i g1 hg
    have hk := reloadDay_keeps fs Symbol Start End s.g g1 hg
    rcases historyTick_cases Start TickMinutes NTicks _ _ h with
      ⟨_, hfl⟩ | ⟨_, dt, ask, bid, ⟨_, hfl⟩ | ⟨_, e, _, hfl⟩⟩
    · simp at hfl
    · have hgf := rawTick_frame Start NTicks dt ask bid
        { ({ s with g := g1 } : Frame) with
          g := { g1 with mIs1stAfterBrokerLogin := false } }
      rw [← hfl] at hgf
      simp only [Flow.frame] at hgf
      rw [hgf]
      exact ⟨hk.2.2.1, rfl⟩
    · have hgf := barTick_frame_session Start NTicks dt e ask bid
        { ({ s with g := g1 } : Frame) with
          g := { g1 with mIs1stAfterBrokerLogin := false } }
      rw [← hfl] at hgf
      simp only [Flow.frame] at hgf
      rw [hgf.1, hgf.2]
      exact ⟨hk.2.2.1, rfl⟩
  · simp at h
  · simp at h

theorem historyPasses_session (fs : FileSystem) (Symbol : String) (Start End : Int)
    (TickMinutes NTicks : Int) :
    ∀ (n : Nat) (s s1 : Frame),
      historyPasses fs Symbol Start End TickMinutes NTicks (n + 1) s = .ok (.next s1) →
      s1.g.mCachePath = s.g.mCachePath ∧ s1.g.mIs1stAfterBrokerLogin = false := by
  intro n
  induction n with
  | zero =>
    intro s s1 h
    rw [historyPasses] at h
    cases hb : historyBody fs Symbol Start End TickMinutes NTicks s with
    | ok fl =>
      cases fl with
      | next s2 =>
        rw [hb] at h
        simp only [historyPasses, Run.ok.injEq, Flow.next.injEq] at h
        subst h
        exact historyBody_next_session fs Symbol Start End TickMinutes NTicks s s2 hb
      | ret n s2 => rw [hb] at h; simp at h
    | fault f => rw [hb] at h; simp at h
    | timeout => rw [hb] at h; simp at h
  | succ n ih =>
    intro s s1 h
    rw [historyPasses] at h
    cases hb : historyBody fs Symbol Start End TickMinutes NTicks s with
    | ok fl =>
      cases fl with
      | next s2 =>
        rw [hb] at h
        simp only at h
        have h1 := ih _ _ h
        have h2 := historyBody_next_session fs Symbol Start End TickMinutes NTicks s s2 hb
        simp only [decrement_g] at h1
        exact ⟨h1.1.trans h2.1, h1.2⟩
      | ret n s2 => rw [hb] at h; simp at h
    | fault f => rw [hb] at h; simp at h
    | timeout => rw [hb] at h; simp at h

/-- A run of `k` ticks of the bucket of the bar in progress, the first of which is read
after a reload: the bar of the current slot goes on. -/
theorem bar_continue (fs : FileSystem) (Symbol : String) (Start End : Int)
    (TickMinutes NTicks : Int) (s : Frame) (g1 : Globals) (c : Nat)
    (hmode : TickMinutes ≠ 0) (hdiv : bucketDivisor TickMinutes ≠ 0)
    (hload : reloadDay fs Symbol Start End s.g = .ok g1)
    (hcur : g1.mCurrentTickNdx = c)
    (h1 : c < g1.mSerialArrays.Tick2dt.length) (h2 : c < g1.mSerialArrays.Tick2Ask.length)
    (h3 : c < g1.mSerialArrays.Tick2Bid.length) :
    ∀ k, 1 ≤ k → k ≤ c + 1 →
      (∀ j, j < k → g1.bucketAt TickMinutes (c - j) = s.g.mPrevMinutes) →
      ∃ s1, historyPasses fs Symbol Start End TickMinutes NTicks k s = .ok (.next s1) ∧
        s1.g.mSerialArrays = g1.mSerialArrays ∧ s1.g.mCurrentTickNdx = (c : Int) - k ∧
        s1.g.mPrevMinutes = s.g.mPrevMinutes ∧ s1.g.mTickVolume = s.g.mTickVolume + k ∧
        s1.Ticks = s.Ticks ∧ s1.tickCount = s.tickCount ∧
        (s1.buf s1.Ticks).time = (s.buf s.Ticks).time ∧
        (s1.buf s1.Ticks).fClose = (s.buf s.Ticks).fClose ∧
        (s1.buf s1.Ticks).fOpen = g1.askAt (c - (k - 1)) ∧
        (s.buf s.Ticks).fHigh ≤ (s1.buf s1.Ticks).fHigh ∧
        (∀ j, j < k → g1.askAt (c - j) ≤ (s1.buf s1.Ticks).fHigh) ∧
        ((s1.buf s1.Ticks).fHigh = (s.buf s.Ticks).fHigh ∨
          ∃ j, j < k ∧ (s1.buf s1.Ticks).fHigh = g1.askAt (c - j)) ∧
        (s1.buf s1.Ticks).fLow ≤ (s.buf s.Ticks).fLow ∧
        (∀ j, j < k → (s1.buf s1.Ticks).fLow ≤ g1.askAt (c - j)) ∧
        ((s1.buf s1.Ticks).fLow = (s.buf s.Ticks).fLow ∨
          ∃ j, j < k ∧ (s1.buf s1.Ticks).fLow = g1.askAt (c - j)) ∧
        (s1.buf s1.Ticks).fVol = s.g.mTickVolume + k := by
  have hkeep := reloadDay_keeps fs Symbol Start End s.g g1 hload
  intro k hk
  induction k, hk using Nat.le_induction with
  | base =>
    intro _ hbucket
    have hb : historyBody fs Symbol Start End TickMinutes NTicks s =
        .ok (barTick Start NTicks (g1.timeAt c) (g1.bucketAt TickMinutes c) (g1.askAt c)
          (g1.bidAt c)
          { ({ s with g := g1 } : Frame) with
            g := { g1 with mIs1stAfterBrokerLogin := false } }) := by
      unfold historyBody
      rw [hload]
      exact historyTick_bar Start TickMinutes NTicks { s with g := g1 } c hmode hdiv hcur h1 h2 h3
    have hsame : g1.bucketAt TickMinutes c = g1.mPrevMinutes := by
      rw [hkeep.1]; exact hbucket 0 (by omega)
    have ht := barTick_same Start NTicks (g1.timeAt c) (g1.bucketAt TickMinutes c) (g1.askAt c)
      (g1.bidAt c)
      { ({ s with g := g1 } : Frame) with g := { g1 with mIs1stAfterBrokerLogin := false } }
      (by simp [hsame])
    refine ⟨(barBuild (g1.bucketAt TickMinutes c) (g1.askAt c) (g1.bidAt c)
      { ({ s with g := g1 } : Frame) with
        g := { g1 with mIs1stAfterBrokerLogin := false } }).decrement,
      by simp only [historyPasses, hb, ht], ?_⟩
    simp only [decrement_g, decrement_Ticks, decrement_buf, decrement_tickCount, barBuild_g,
      barBuild_Ticks, barBuild_tickCount, barBuild_buf, Function.update_same, hcur, hkeep.2.1]
    refine ⟨trivial, by simp, ?_, by simp, trivial, trivial, trivial, trivial, by simp,
      le_max_left _ _, ?_, ?_, min_le_left _ _, ?_, ?_, by simp⟩
    · rw [hsame, hkeep.1]
    · intro j hj
      have : j = 0 := by omega
      subst this
      exact le_max_right _ _
    · rcases le_total (g1.askAt c) (s.buf s.Ticks).fHigh with hle | hle
      · left; exact max_eq_left hle
      · right; exact ⟨0, by omega, by simp [max_eq_right hle]⟩
    · intro j hj
      have : j = 0 := by omega
      subst this
      exact min_le_right _ _
    · rcases le_total (s.buf s.Ticks).fLow (g1.askAt c) with hle | hle
      · left; exact min_eq_left hle
      · right; exact ⟨0, by omega, by simp [min_eq_right hle]⟩
  | succ k hk ih =>
    intro hkc hbucket
    obtain ⟨s1, hp, hA, hC, hP, hV, hT, hN, htime, hclose, _, hh0, hhi, hhiw, hl0, hlo, hlow, _⟩ :=
      ih (by omega) (fun j hj => hbucket j (by omega))
    have hidx : s1.g.mCurrentTickNdx = ((c - k : Nat) : Int) := by omega
    have hb := historyBody_bar fs Symbol Start End TickMinutes NTicks s1 (c - k) hmode hdiv hidx
      (by rw [hA]; omega) (by rw [hA]; omega) (by rw [hA]; omega)
    have e1 : s1.g.timeAt (c - k) = g1.timeAt (c - k) := by simp [Globals.timeAt, hA]
    have e2 : s1.g.bucketAt TickMinutes (c - k) = s.g.mPrevMinutes := by
      rw [← hbucket k (by omega)]; simp [Globals.bucketAt, hA]
    have e3 : s1.g.askAt (c - k) = g1.askAt (c - k) := by simp [Globals.askAt, hA]
    have e4 : s1.g.bidAt (c - k) = g1.bidAt (c - k) := by simp [Globals.bidAt, hA]
    rw [e1, e2, e3, e4] at hb
    have ht := barTick_same Start NTicks (g1.timeAt (c - k)) s.g.mPrevMinutes
      (g1.askAt (c - k)) (g1.bidAt (c - k))
      { s1 with g := { s1.g with mIs1stAfterBrokerLogin := false } } (by simp [hP])
    refine ⟨(barBuild s.g.mPrevMinutes (g1.askAt (c - k)) (g1.bidAt (c - k))
      { s1 with g := { s1.g with mIs1stAfterBrokerLogin := false } }).decrement, ?_, ?_⟩
    · rw [historyPasses_succ fs Symbol Start End TickMinutes NTicks k s s1 hp, hb, ht]
    simp only [decrement_g, decrement_Ticks, decrement_buf, decrement_tickCount, barBuild_g,
      barBuild_Ticks, barBuild_tickCount, barBuild_buf, Function.update_same, hA, hC, hV, htime,
      hclose]
    refine ⟨trivial, by push_cast; ring, trivial, by push_cast; ring, hT, hN, trivial, trivial,
      by simp, le_trans hh0 (le_max_left _ _), ?_, ?_, le_trans (min_le_left _ _) hl0, ?_, ?_,
      by push_cast; ring⟩
    · intro j hj
      rcases Nat.lt_succ_iff_lt_or_eq.mp hj with hlt | heq
      · exact le_trans (hhi j hlt) (le_max_left _ _)
      · subst heq; exact le_max_right _ _
    · rcases le_total (g1.askAt (c - k)) (s1.buf s1.Ticks).fHigh with hle | hle
      · rw [max_eq_left hle]
        rcases hhiw with hw | ⟨j, hj, hw⟩
        · left; exact hw
        · right; exact ⟨j, by omega, hw⟩
      · right; exact ⟨k, by omega, by rw [max_eq_right hle]⟩
    · intro j hj
      rcases Nat.lt_succ_iff_lt_or_eq.mp hj with hlt | heq
      · exact le_trans (min_le_left _ _) (hlo j hlt)
      · subst heq; exact min_le_right _ _
    · rcases le_total (s1.buf s1.Ticks).fLow (g1.askAt (c - k)) with hle | hle
      · rw [min_eq_left hle]
        rcases hlow with hw | ⟨j, hj, hw⟩
        · left; exact hw
        · right; exact ⟨j, by omega, hw⟩
      · right; exact ⟨k, by omega, by rw [min_eq_right hle]⟩

theorem decodedDay_length (data : List Nat) :
    (decodedDay data).Tick2dt.length = data.length / 24 ∧
    (decodedDay data).Tick2Ask.length = data.length / 24 ∧
    (decodedDay data).Tick2Bid.length = data.length / 24 := by
  simp [decodedDay]

theorem decodedDay_getD (data : List Nat) (i : Nat) (h : i < data.length / 24) :
    (decodedDay data).Tick2dt.getD i 0 = rawTimestamp data i ∧
    (decodedDay data).Tick2Ask.getD i 0 = fillAsk data i := by
  simp [decodedDay, List.getD_eq_getElem?_getD, h]

/-- A tick at the millisecond of `Start` whose `double` lies one step (`2 ^ -38` day) above
the `double` of `Start`: line 229 rounds the quotient and the sum, the caller's `double` is
rounded once. The ticks a millisecond before and after compare as their exact times do. -/
theorem tick_on_Start_date :
    tickOnStartLoaded.timeAt 1 = 2209248018260 ∧
    tickOnStartLoaded.dateAt 1 = startDate 2209248018260 + 2 ^ 41 ∧
    tickDate 86418259 < startDate 2209248018260 ∧
    startDate 2209248018260 < tickDate 86418261 := by
  decide

/-! ## The stop test on doubles and the order of the exact times -/

theorem bitStep_bound (w L : Nat) (p : Nat × Nat)
    (h : p.1 < 2 ^ (L - p.2) ∧ p.2 ≤ L) :
    (bitStep w p).1 < 2 ^ (L - (bitStep w p).2) ∧ (bitStep w p).2 ≤ L := by
  obtain ⟨h1, h2⟩ := h
  unfold bitStep
  split_ifs with hw
  · have hlt : 2 ^ w < 2 ^ (L - p.2) := lt_of_le_of_lt hw h1
    have hwl : w < L - p.2 := (Nat.pow_lt_pow_iff_right (by norm_num)).mp hlt
    refine ⟨?_, by simp only; omega⟩
    simp only
    apply Nat.div_lt_of_lt_mul
    rw [← pow_add]
    have e : w + (L - (p.2 + w)) = L - p.2 := by omega
    rw [e]
    exact h1
  · exact ⟨h1, h2⟩

theorem bitStep_small (w : Nat) (p : Nat × Nat) (h : p.1 < 2 ^ (w + w)) :
    (bitStep w p).1 < 2 ^ w := by
  unfold bitStep
  split_ifs with hw
  · apply Nat.div_lt_of_lt_mul
    rw [← pow_add]
    exact h
  · omega

/-- The count of binary digits is at most `L` for a number below `2 ^ L`. -/
theorem bitLength_le (n L : Nat) (hn : n < 2 ^ L) (hL : L ≤ 256) : bitLength n n ≤ L := by
  rcases Nat.eq_zero_or_pos n with h0 | hpos
  · subst h0
    simp [bitLength]
  · obtain ⟨f, rfl⟩ : ∃ f, n = f + 1 := ⟨n - 1, by omega⟩
    have h256 : f + 1 < 2 ^ 256 := lt_of_lt_of_le hn (Nat.pow_le_pow_right (by norm_num) hL)
    unfold bitLength
    rw [if_neg (by omega)]
    simp only
    have i0 : ((f + 1, 0) : Nat × Nat).1 < 2 ^ (L - ((f + 1, 0) : Nat × Nat).2) ∧
        ((f + 1, 0) : Nat × Nat).2 ≤ L := ⟨by simpa using hn, by simp⟩
    have i1 := bitStep_bound 128 L _ i0
    have i2 := bitStep_bound 64 L _ i1
    have i3 := bitStep_bound 32 L _ i2
    have i4 := bitStep_bound 16 L _ i3
    have i5 := bitStep_bound 8 L _ i4
    have i6 := bitStep_bound 4 L _ i5
    have i7 := bitStep_bound 2 L _ i6
    have i8 := bitStep_bound 1 L _ i7
    have s1 := bitStep_small 128 (f + 1, 0) (by simpa using h256)
    have s2 := bitStep_small 64 _ s1
    have s3 := bitStep_small 32 _ s2
    have s4 := bitStep_small 16 _ s3
    have s5 := bitStep_small 8 _ s4
    have s6 := bitStep_small 4 _ s5
    have s7 := bitStep_small 2 _ s6
    have s8 := bitStep_small 1 _ s7
    generalize bitStep 1 (bitStep 2 (bitStep 4 (bitStep 8 (bitStep 16 (bitStep 32
        (bitStep 64 (bitStep 128 (f + 1, 0)))))))) = p at i8 s8
    obtain ⟨j1, j2⟩ := i8
    have hp : p.1 = 0 ∨ p.1 = 1 := by omega
    rcases hp with hp | hp
    · rw [hp]; omega
    · rw [hp] at j1 ⊢
      have : 0 < L - p.2 := by
        by_contra hc
        have : L - p.2 = 0 := by omega
        rw [this] at j1
        simp at j1
      omega

/-- The rounded quotient lies within half a step of the quotient, the step being at most
`2 ^ (L - 53)` for a quotient below `2 ^ L`. -/
theorem roundDouble_near (a q L : Nat) (hq : 0 < q) (hL : a / q < 2 ^ L) (hL2 : L ≤ 256) :
    2 * (roundDouble a q * q) ≤ 2 * a + q * 2 ^ (L - 53) ∧
    2 * a ≤ 2 * (roundDouble a q * q) + q * 2 ^ (L - 53) := by
  have hsh : bitLength (a / q) (a / q) - 53 ≤ L - 53 := by
    have := bitLength_le (a / q) L hL hL2
    omega
  have hP : 2 ^ (bitLength (a / q) (a / q) - 53) ≤ 2 ^ (L - 53) :=
    Nat.pow_le_pow_right (by norm_num) hsh
  unfold roundDouble
  simp only
  generalize bitLength (a / q) (a / q) - 53 = sh at hP
  have hbpos : 0 < q * 2 ^ sh := Nat.mul_pos hq (pow_pos (by norm_num) _)
  have hb : q * 2 ^ sh ≤ q * 2 ^ (L - 53) := Nat.mul_le_mul_left q hP
  have hdm := Nat.div_add_mod a (q * 2 ^ sh)
  have hr := Nat.mod_lt a hbpos
  generalize hB : q * 2 ^ sh = B at *
  generalize hm : a / B = m at *
  generalize hrr : a % B = r at *
  generalize hX : B * m = X at *
  split_ifs with hc
  · have e : (m + 1) * 2 ^ sh * q = X + B := by
      rw [← hX, ← hB]; ring
    rw [e]
    constructor
    · rcases hc with h | ⟨h, _⟩ <;> omega
    · omega
  · have e : m * 2 ^ sh * q = X := by
      rw [← hX, ← hB]; ring
    rw [e]
    have h2 : 2 * r ≤ B := by
      by_contra hcc
      exact hc (Or.inl (by omega))
    constructor <;> omega

/-- Away from the millisecond of `Start` the test on the `double`s is the comparison of the
exact times: for a timestamp below `2 ^ 42` ms (the year 2109) and `Start` between 0 and
`2 ^ 43` ms, a tick earlier than `Start` has a `double` below that of `Start`, and a tick
later than `Start` a `double` above it. -/
theorem date_order (ts : Nat) (Start : Int) (hts : ts < 2 ^ 42) (h0 : 0 ≤ Start)
    (hS : Start < 2 ^ 43) :
    (25569 * msPerDay + ts < Start → tickDate ts < startDate Start) ∧
    (Start < 25569 * msPerDay + ts → startDate Start < tickDate ts) := by
  obtain ⟨S, rfl⟩ : ∃ S : Nat, Start = S := ⟨Start.toNat, by omega⟩
  have hSn : S < 2 ^ 43 := by exact_mod_cast hS
  have e1 : tickDate ts =
      ((roundDouble (25569 * 2 ^ 79 + roundDouble (roundDouble (ts * 2 ^ 79) 1) 86400000) 1 :
        Nat) : Int) := rfl
  have e2 : startDate (S : Int) = ((roundDouble (S * 2 ^ 79) 86400000 : Nat) : Int) := by
    unfold startDate
    rw [if_neg (by omega)]
    simp
  rw [e1, e2]
  -- the conversion of the timestamp
  have hc := roundDouble_near (ts * 2 ^ 79) 1 121 (by norm_num)
    (by rw [Nat.div_one]; omega) (by norm_num)
  generalize roundDouble (ts * 2 ^ 79) 1 = c0 at hc ⊢
  -- the division
  have hq := roundDouble_near c0 86400000 96 (by norm_num)
    (by apply Nat.div_lt_of_lt_mul; norm_num at hc ⊢; omega) (by norm_num)
  generalize roundDouble c0 86400000 = q1 at hq ⊢
  -- the addition
  have ht := roundDouble_near (25569 * 2 ^ 79 + q1) 1 98 (by norm_num)
    (by rw [Nat.div_one]; norm_num at hc hq ⊢; omega) (by norm_num)
  generalize roundDouble (25569 * 2 ^ 79 + q1) 1 = t at ht ⊢
  -- the double of Start
  have hs := roundDouble_near (S * 2 ^ 79) 86400000 96 (by norm_num)
    (by apply Nat.div_lt_of_lt_mul; norm_num at hSn ⊢; omega) (by norm_num)
  generalize roundDouble (S * 2 ^ 79) 86400000 = σ at hs ⊢
  simp only [msPerDay]
  norm_num at hc hq ht hs
  constructor
  · intro h
    have h' : 25569 * 86400000 + ts + 1 ≤ S := by omega
    have : t < σ := by omega
    exact_mod_cast this
  · intro h
    have h' : S + 1 ≤ 25569 * 86400000 + ts := by omega
    have : σ < t := by omega
    exact_mod_cast this

/-! ## The claims -/

/-- Claim C1, amended: for every decompressed buffer of `N` whole 24-byte records whose
first record has a low 32-bit bid or ask that is not zero, `ReadCTraderDayV2` succeeds and
no element of the resulting bid array and none of the resulting ask array is zero. -/
theorem zero_fill_invariant (data : List Nat) (N : Nat) (m : SerialArrays)
    (hlen : data.length = 24 * N) (h0 : rawBid data 0 ≠ 0 ∨ rawAsk data 0 ≠ 0) :
    ∃ m1, ReadCTraderDayV2 (.inflated data) m = .ok ("", m1) ∧
      (∀ x ∈ m1.Tick2Bid, x ≠ 0) ∧ (∀ x ∈ m1.Tick2Ask, x ≠ 0) := by
  refine ⟨_, ReadCTraderDayV2_whole data N m hlen, ?_, ?_⟩
  · intro x hx
    obtain ⟨i, _, rfl⟩ := List.mem_map.mp hx
    exact fillBid_ne_zero data h0 i
  · intro x hx
    obtain ⟨i, _, rfl⟩ := List.mem_map.mp hx
    exact fillAsk_ne_zero data h0 i

/-- Witness of C1 amended: a first record with bid 0 and ask 7, a second with both 0. -/
theorem zero_fill_invariant_witness :
    ∃ m1, ReadCTraderDayV2 (.inflated (encodeRecord 1000 0 7 ++ encodeRecord 2000 0 0))
        { Tick2dt := [], Tick2Bid := [], Tick2Ask := [] } = .ok ("", m1) ∧
      (∀ x ∈ m1.Tick2Bid, x ≠ 0) ∧ (∀ x ∈ m1.Tick2Ask, x ≠ 0) :=
  zero_fill_invariant _ 2 _ (by decide) (by decide)

/-- Counterexample to claim C1 as stated: a buffer of one whole record whose bid and ask
are both zero decodes successfully into a bid array and an ask array that hold zero. -/
theorem zero_fill_counterexample :
    ∃ m1, ReadCTraderDayV2 (.inflated (encodeRecord 1000 0 0))
        { Tick2dt := [], Tick2Bid := [], Tick2Ask := [] } = .ok ("", m1) ∧
      0 ∈ m1.Tick2Bid ∧ 0 ∈ m1.Tick2Ask :=
  ⟨{ Tick2dt := [1000], Tick2Bid := [0], Tick2Ask := [0] }, by decide, by decide, by decide⟩

/-- Claim C2, at its failing input: raw tick mode, first call after login, `End` on a day
without file and the day before holding two ticks in ascending order, `NTicks = 3`. The
call returns 3 records whose times are those of tick 1, tick 0 and tick 1 again: the third
record is later than the second, where the claim asks for non-increasing times. -/
theorem reload_breaks_backward_order :
    ((BrokerHistory2 twoTickDay 3 "EURUSD" 0 (25571 * msPerDay) 0 3 zeroTicks
        afterLogin).records).map (List.map T6.time) =
      some [2209248002000, 2209248001000, 2209248002000] := by
  decide

/-- Claim C3, at its failing input: bar mode with `NTicks = 1` on a day whose two ticks
fall in two buckets. The call returns 1 and has written slot 0 and slot 1, where the claim
asks that every slot written has an index below `NTicks`. -/
theorem bar_mode_writes_slot_NTicks :
    (BrokerHistory2 twoBucketDay 3 "EURUSD" 0 (25571 * msPerDay) 1 1 zeroTicks
      afterLogin).returned = some 1 ∧
    (BrokerHistory2 twoBucketDay 3 "EURUSD" 0 (25571 * msPerDay) 1 1 zeroTicks
      afterLogin).slotsWritten = some [0, 1] := by
  decide

/-- Claim C4, at its failing input: raw tick mode with `NTicks = 0` on a day with ticks.
The call returns 1, where the claim asks for a count of at most `NTicks`. -/
theorem raw_mode_zero_NTicks_returns_one :
    (BrokerHistory2 twoTickDay 3 "EURUSD" 0 (25571 * msPerDay) 0 0 zeroTicks
      afterLogin).returned = some 1 := by
  decide

/-- Claim C5: for every decompressed buffer of exactly `N` whole 24-byte little-endian
records, `ReadCTraderDayV2` succeeds with three arrays of length `N`; `Tick2dt[i]` is the
raw 64-bit timestamp of record `i`, and `Tick2Bid[i]` (resp. `Tick2Ask[i]`) is the low 32
bits of the raw field when that is not zero, otherwise the decoded value at `i - 1` when
`i > 0`, otherwise the raw low 32-bit ask (resp. bid) of record 0. -/
theorem decode_forward_fill (data : List Nat) (N : Nat) (m : SerialArrays)
    (hlen : data.length = 24 * N) :
    ∃ m1, ReadCTraderDayV2 (.inflated data) m = .ok ("", m1) ∧
      m1.Tick2dt.length = N ∧ m1.Tick2Bid.length = N ∧ m1.Tick2Ask.length = N ∧
      ∀ i, i < N →
        m1.Tick2dt[i]? = some (rawTimestamp data i) ∧
        m1.Tick2Bid[i]? = some
          (if rawBid data i ≠ 0 then rawBid data i
           else if 0 < i then m1.Tick2Bid.getD (i - 1) 0 else rawAsk data 0) ∧
        m1.Tick2Ask[i]? = some
          (if rawAsk data i ≠ 0 then rawAsk data i
           else if 0 < i then m1.Tick2Ask.getD (i - 1) 0 else rawBid data 0) := by
  refine ⟨_, ReadCTraderDayV2_whole data N m hlen, by simp, by simp, by simp, ?_⟩
  intro i hi
  have hr : (List.range N)[i]? = some i := List.getElem?_range hi
  refine ⟨by simp [hr], ?_, ?_⟩
  · cases i with
    | zero => simp [hr, fillBid]
    | succ j =>
      have hj : (List.range N)[j]? = some j := List.getElem?_range (by omega)
      simp [hr, hj, fillBid, List.getD]
  · cases i with
    | zero => simp [hr, fillAsk]
    | succ j =>
      have hj : (List.range N)[j]? = some j := List.getElem?_range (by omega)
      simp [hr, hj, fillAsk, List.getD]

/-- Witness of C5: two records, the second with a zero bid and a zero ask. -/
theorem decode_forward_fill_witness :
    ∃ m1, ReadCTraderDayV2 (.inflated (encodeRecord 1000 5 7 ++ encodeRecord 2000 0 0))
        { Tick2dt := [], Tick2Bid := [], Tick2Ask := [] } = .ok ("", m1) ∧
      m1.Tick2dt.length = 2 ∧ m1.Tick2Bid.length = 2 ∧ m1.Tick2Ask.length = 2 ∧
      ∀ i, i < 2 →
        m1.Tick2dt[i]? =
          some (rawTimestamp (encodeRecord 1000 5 7 ++ encodeRecord 2000 0 0) i) ∧
        m1.Tick2Bid[i]? = some
          (if rawBid (encodeRecord 1000 5 7 ++ encodeRecord 2000 0 0) i ≠ 0 then
            rawBid (encodeRecord 1000 5 7 ++ encodeRecord 2000 0 0) i
           else if 0 < i then m1.Tick2Bid.getD (i - 1) 0
           else rawAsk (encodeRecord 1000 5 7 ++ encodeRecord 2000 0 0) 0) ∧
        m1.Tick2Ask[i]? = some
          (if rawAsk (encodeRecord 1000 5 7 ++ encodeRecord 2000 0 0) i ≠ 0 then
            rawAsk (encodeRecord 1000 5 7 ++ encodeRecord 2000 0 0) i
           else if 0 < i then m1.Tick2Ask.getD (i - 1) 0
           else rawBid (encodeRecord 1000 5 7 ++ encodeRecord 2000 0 0) 0) :=
  decode_forward_fill _ 2 _ (by decide)

/-- Claim C6, at its failing inputs: on a buffer of one record and one more byte the parse
loop makes a second pass and reads past the end of the buffer; on a buffer of one record
and eight more bytes the second pass writes `Tick2dt[1]` into a vector of size 1. The
claim asks for `floor(L / 24)` passes and no access past the end. -/
theorem trailing_record_overrun :
    ReadCTraderDayV2 (.inflated (encodeRecord 1000 5 7 ++ [0]))
        { Tick2dt := [], Tick2Bid := [], Tick2Ask := [] } = .fault .readPastEnd ∧
    ReadCTraderDayV2 (.inflated (encodeRecord 1000 5 7 ++ [0, 0, 0, 0, 0, 0, 0, 0]))
        { Tick2dt := [], Tick2Bid := [], Tick2Ask := [] } = .fault .writePastEnd := by
  decide

/-- Claim C7: in bar mode (the divisor `TickMinutes * 60000` of the bucket not being
zero), let the ticks at the cursor `c` and the `k - 1` indices below it (visited newest
first) fall in one bucket, let the first open a new bar (its bucket is below
`mPrevMinutes`) and let no count or start bound fire on it. Then the `k` passes of
the loop go through, and the bar slot after them has the time and the close of the first
tick, the open of the `k`-th tick, a high that is the greatest ask of the run, a low that
is the least ask of the run, and volume `k`. -/
theorem bar_aggregation (fs : FileSystem) (Symbol : String) (Start End : Int)
    (TickMinutes NTicks : Int) (s : Frame) (c k : Nat)
    (hmode : TickMinutes ≠ 0) (hdiv : bucketDivisor TickMinutes ≠ 0)
    (hcur : s.g.mCurrentTickNdx = c)
    (h1 : c < s.g.mSerialArrays.Tick2dt.length) (h2 : c < s.g.mSerialArrays.Tick2Ask.length)
    (h3 : c < s.g.mSerialArrays.Tick2Bid.length)
    (hk : 1 ≤ k) (hkc : k ≤ c + 1)
    (hbucket : ∀ j, j < k → s.g.bucketAt TickMinutes (c - j) = s.g.bucketAt TickMinutes c)
    (hnew : s.g.bucketAt TickMinutes c < s.g.mPrevMinutes)
    (hbound : ¬ ((if INT_MAX ≠ s.g.mPrevMinutes then s.tickCount + 1 else s.tickCount) ≥ NTicks ∨
      s.g.dateAt c ≤ startDate Start)) :
    ∃ s1, historyPasses fs Symbol Start End TickMinutes NTicks k s = .ok (.next s1) ∧
      (s1.buf s1.Ticks).time = s.g.timeAt c ∧
      (s1.buf s1.Ticks).fClose = s.g.askAt c ∧
      (s1.buf s1.Ticks).fOpen = s.g.askAt (c - (k - 1)) ∧
      (∀ j, j < k → s.g.askAt (c - j) ≤ (s1.buf s1.Ticks).fHigh) ∧
      (∃ j, j < k ∧ (s1.buf s1.Ticks).fHigh = s.g.askAt (c - j)) ∧
      (∀ j, j < k → (s1.buf s1.Ticks).fLow ≤ s.g.askAt (c - j)) ∧
      (∃ j, j < k ∧ (s1.buf s1.Ticks).fLow = s.g.askAt (c - j)) ∧
      (s1.buf s1.Ticks).fVol = k := by
  obtain ⟨s1, hp, _, _, _, _, _, r1, r2, r3, r4, r5, r6, r7, r8⟩ :=
    bar_run fs Symbol Start End TickMinutes NTicks s c hmode hdiv hcur h1 h2 h3 hnew hbound
      k hk hkc hbucket
  exact ⟨s1, hp, r1, r2, r3, r4, r5, r6, r7, r8⟩

/-- Witness of C7, the example of the claim: ticks (t=100, ask=1.1000), (t=90,
ask=1.1010), (t=80, ask=1.0990) of one 1-minute bucket give high 1.1010, low 1.0990,
close 1.1000, open 1.0990 and volume 3 (prices in units of `tickSize = 1e-5`). -/
theorem bar_aggregation_witness :
    ∃ s1, historyPasses noFiles "EURUSD" 0 (25570 * msPerDay) 1 10 3 threeTickBar =
        .ok (.next s1) ∧
      (s1.buf s1.Ticks).time = 25569 * msPerDay + 100 ∧
      (s1.buf s1.Ticks).fClose = 110000 ∧
      (s1.buf s1.Ticks).fOpen = 109900 ∧
      (s1.buf s1.Ticks).fHigh = 110100 ∧
      (s1.buf s1.Ticks).fLow = 109900 ∧
      (s1.buf s1.Ticks).fVol = 3 := by
  obtain ⟨s1, hp, r1, r2, r3, r4, ⟨j, hj, r5⟩, r6, ⟨i, hi, r7⟩, r8⟩ :=
    bar_aggregation noFiles "EURUSD" 0 (25570 * msPerDay) 1 10 threeTickBar 2 3
      (by decide) (by decide) (by decide) (by decide) (by decide) (by decide) (by decide)
      (by decide) (by decide) (by decide) (by decide)
  refine ⟨s1, hp, r1, r2, r3, ?_, ?_, r8⟩
  · have a1 := r4 1 (by decide)
    have e1 : threeTickBar.g.askAt (2 - 1) = 110100 := by decide
    rw [e1] at a1
    interval_cases j
    · have : threeTickBar.g.askAt (2 - 0) = 110000 := by decide
      omega
    · rw [r5]; exact e1
    · have : threeTickBar.g.askAt (2 - 2) = 109900 := by decide
      omega
  · have a1 := r6 2 (by decide)
    have e1 : threeTickBar.g.askAt (2 - 2) = 109900 := by decide
    rw [e1] at a1
    interval_cases i
    · have : threeTickBar.g.askAt (2 - 0) = 110000 := by decide
      omega
    · have : threeTickBar.g.askAt (2 - 1) = 110100 := by decide
      omega
    · rw [r7]; exact e1

/-- Claim C8, at its failing input: first call after login in bar mode (`TickMinutes = 1`,
`NTicks = 3`, `Start = 0`), `End` on a day without file, the day before holding one tick.
Whatever the number of passes granted, the loop has not returned: the day is loaded again
each time the cursor runs out and its tick never opens a new bucket. -/
theorem bar_mode_never_returns (fuel : Nat) :
    BrokerHistory2 oneTickDay fuel "EURUSD" 0 (25571 * msPerDay) 1 3 zeroTicks afterLogin =
      .timeout := by
  unfold BrokerHistory2
  cases fuel with
  | zero => rfl
  | succ fuel =>
    obtain ⟨s1, h1, h2⟩ := first_pass_caught
    unfold historyLoop
    rw [h1]
    exact caught_forever fuel _ h2

/-- Claim C9, at its failing input: raw tick mode on a loaded day of three ticks, all
after `Start`. A call with `NTicks = 1` emits the newest tick; a second call with
`NTicks = 1` emits the same tick again; a single call with `NTicks = 2` emits the newest
tick and the one before it. -/
theorem raw_calls_repeat_boundary_tick :
    ((BrokerHistory2 noFiles 3 "EURUSD" 0 (25571 * msPerDay) 0 1 zeroTicks
        threeTicksLoaded).records).map (List.map T6.time) = some [2209248003000] ∧
    (((BrokerHistory2 noFiles 3 "EURUSD" 0 (25571 * msPerDay) 0 1 zeroTicks
        threeTicksLoaded).thenCall
      (BrokerHistory2 noFiles 3 "EURUSD" 0 (25571 * msPerDay) 0 1 zeroTicks)).records).map
        (List.map T6.time) = some [2209248003000] ∧
    ((BrokerHistory2 noFiles 3 "EURUSD" 0 (25571 * msPerDay) 0 2 zeroTicks
        threeTicksLoaded).records).map (List.map T6.time) =
      some [2209248003000, 2209248002000] := by
  decide

/-- What a call has counted and written when it returns `n` with a tick left under the
cursor (it ended on the count or start bound): in raw tick mode the slots written are
exactly the slots below `n`; in bar mode `n` is the offset of the slot seeded last and the
slots written are the slots up to `n`, one more than the count returned. -/
theorem returned_count_and_slots (fs : FileSystem) (fuel : Nat) (Symbol : String)
    (Start End : Int) (TickMinutes NTicks : Int) (Ticks : Nat → T6) (g : Globals)
    (n : Int) (fr : Frame)
    (h : BrokerHistory2 fs fuel Symbol Start End TickMinutes NTicks Ticks g = .ok (n, fr))
    (hcur : fr.g.mCurrentTickNdx ≠ -1) :
    (TickMinutes = 0 → ∀ i, i ∈ fr.written ↔ (i : Int) < n) ∧
    (TickMinutes ≠ 0 → n = fr.Ticks ∧ ∀ i, i ∈ fr.written ↔ i ≤ fr.Ticks) := by
  unfold BrokerHistory2 at h
  constructor
  · intro h0
    subst h0
    exact historyLoop_raw_count fs Symbol Start End NTicks fuel _ n fr
      ⟨rfl, fun i => by simp⟩ h hcur
  · intro h0
    exact historyLoop_bar_count fs Symbol Start End TickMinutes NTicks h0 fuel _ n fr
      ⟨rfl, fun i hi => by simp at hi, fun i hi => by simp at hi, fun hp => absurd rfl hp⟩
      h hcur

/-- The count and the slots of a bar mode call that ends on the start bound, on a day of
two ticks in two buckets. -/
theorem returned_count_and_slots_witness :
    ∃ n fr,
      BrokerHistory2 twoBucketDay 3 "EURUSD" (25569 * msPerDay + 86401000) (25571 * msPerDay) 1 5
        zeroTicks afterLogin = .ok (n, fr) ∧ fr.g.mCurrentTickNdx ≠ -1 ∧
      (((1 : Int) = 0 → ∀ i, i ∈ fr.written ↔ (i : Int) < n) ∧
       ((1 : Int) ≠ 0 → n = fr.Ticks ∧ ∀ i, i ∈ fr.written ↔ i ≤ fr.Ticks)) := by
  have hg : ((BrokerHistory2 twoBucketDay 3 "EURUSD" (25569 * msPerDay + 86401000)
      (25571 * msPerDay) 1 5 zeroTicks afterLogin).globals).map Globals.mCurrentTickNdx
      = some 0 := by decide
  cases h : BrokerHistory2 twoBucketDay 3 "EURUSD" (25569 * msPerDay + 86401000)
      (25571 * msPerDay) 1 5 zeroTicks afterLogin with
  | ok p =>
    obtain ⟨n, fr⟩ := p
    rw [h] at hg
    simp [Run.globals] at hg
    have hcur : fr.g.mCurrentTickNdx ≠ -1 := by omega
    exact ⟨n, fr, rfl, hcur, returned_count_and_slots _ _ _ _ _ _ _ _ _ n fr h hcur⟩
  | fault f => rw [h] at hg; simp [Run.globals] at hg
  | timeout => rw [h] at hg; simp [Run.globals] at hg

/-- Claim C10, at its failing inputs, first call after login in bar mode with
`TickMinutes = 1`: (1) two ticks in two buckets, `Start` half a second after the older
tick, `NTicks = 5`: the start bound fires on the bar of the older tick, the call has
written the bars of slots 0 and 1 and returns 1; (2) the day of `End` holding one tick
after `Start` and no earlier file, `NTicks = 3`: the bar of the tick is written into slot 0,
the data runs out and the call returns 0. -/
theorem seeded_bar_not_counted :
    (BrokerHistory2 twoBucketDay 3 "EURUSD" (25569 * msPerDay + 86401500) (25571 * msPerDay) 1 5
      zeroTicks afterLogin).returned = some 1 ∧
    (BrokerHistory2 twoBucketDay 3 "EURUSD" (25569 * msPerDay + 86401500) (25571 * msPerDay) 1 5
      zeroTicks afterLogin).slotsWritten = some [0, 1] ∧
    (BrokerHistory2 lastDayOnly 3 "EURUSD" (25571 * msPerDay) (25571 * msPerDay + 5000) 1 3
      zeroTicks afterLogin).returned = some 0 ∧
    (BrokerHistory2 lastDayOnly 3 "EURUSD" (25571 * msPerDay) (25571 * msPerDay + 5000) 1 3
      zeroTicks afterLogin).slotsWritten = some [0] := by
  decide

/-- Claim C16: a file that is not found, not opened or not inflated to the end of the
stream makes `ReadCTraderDayV2` return a non-empty error string with the three arrays as
they were; whenever the function returns a non-empty string the arrays are as they were
before the call, and when it returns the empty string the three arrays have the same
length. -/
theorem decode_all_or_nothing (file : DayFile) (m : SerialArrays) :
    (file.unavailable = true → ∃ err, err ≠ "" ∧ ReadCTraderDayV2 file m = .ok (err, m)) ∧
    (∀ err m1, ReadCTraderDayV2 file m = .ok (err, m1) →
      (err ≠ "" → m1 = m) ∧
      (err = "" → m1.Tick2dt.length = m1.Tick2Bid.length ∧
        m1.Tick2Bid.length = m1.Tick2Ask.length)) := by
  refine ⟨ReadCTraderDayV2_unavailable file m, ?_⟩
  intro err m1 h
  rcases ReadCTraderDayV2_ok_cases file m err m1 h with ⟨h1, h2, _⟩ | ⟨h1, data, _, _, h2⟩
  · exact ⟨fun _ => h2, fun e => absurd e h1⟩
  · refine ⟨fun e => absurd h1 e, fun _ => ?_⟩
    subst h2
    simp [decodedDay]

/-- Claim C13: on the first call after `BrokerLogin`, let `End - k` be the most recent
day down from `End` whose file decodes (the files of the `k` days from `End` down to it
are not found, not opened or not inflated, its own file holds whole records) and let it
be at or after `Start - 10`. Then the reload of the first pass skips the `k` days and
loads that day, sets the cursor to the last index of its series, and the pass goes on
with the tick under that cursor. -/
theorem first_call_loads_latest_day (fs : FileSystem) (Symbol : String) (Start End : Int)
    (TickMinutes NTicks : Int) (Ticks : Nat → T6)
    (APPDATA : String) (isDirectory : String → Bool) (user Password : String)
    (g0 g : Globals) (data : List Nat) (k : Nat)
    (hg : g = (BrokerLogin APPDATA isDirectory (some user) Password g0).2)
    (hrange : End - k * msPerDay ≥ Start - 10 * msPerDay)
    (hskip : ∀ j : Nat, j < k → (fs (g.mCachePath ++ "\\" ++ Symbol ++ "\\t1")
      ((End - j * msPerDay) / msPerDay)).unavailable = true)
    (hfile : fs (g.mCachePath ++ "\\" ++ Symbol ++ "\\t1") ((End - k * msPerDay) / msPerDay) =
      .inflated data)
    (hdata : data.length % 24 = 0) :
    ∃ loaded : Globals,
      reloadDay fs Symbol Start End { g with mPrevMinutes := INT_MAX } = .ok loaded ∧
      loaded.mSerialArrays = decodedDay data ∧
      loaded.mCurrentTickNdx = ((data.length / 24 : Nat) : Int) - 1 ∧
      historyBody fs Symbol Start End TickMinutes NTicks
        { g := { g with mPrevMinutes := INT_MAX }, tickCount := 0, Ticks := 0, buf := Ticks,
          written := [] } =
      historyTick Start TickMinutes NTicks
        { g := loaded, tickCount := 0, Ticks := 0, buf := Ticks, written := [] } := by
  have hc : g.mCurrentTickNdx = -1 := by rw [hg]; rfl
  have h1 : g.mIs1stAfterBrokerLogin = true := by rw [hg]; rfl
  have hr : reloadDay fs Symbol Start End { g with mPrevMinutes := INT_MAX } =
      .ok { g with mPrevMinutes := INT_MAX, mSerialArrays := decodedDay data
                   mCurrentTickNdx := ((data.length / 24 : Nat) : Int) - 1 } := by
    have hb : k < daySearchBudget Start End := by
      unfold daySearchBudget
      have hk : (k : Int) ≤ (End - (Start - 10 * msPerDay)) / msPerDay := by
        simp only [msPerDay] at hrange ⊢
        omega
      omega
    have := daySearch_skip fs Symbol Start data hdata k (daySearchBudget Start End) End
      { g with mPrevMinutes := INT_MAX } hb hrange hskip hfile
    simpa [reloadDay, hc, h1] using this
  refine ⟨_, hr, rfl, rfl, ?_⟩
  unfold historyBody
  rw [hr]

/-- Claim C14: a call made with the cursor at -1, when no day from `End` down to
`Start - 10` has a file that decodes, returns 0 in its first pass, in raw tick mode and in
bar mode alike, has written no slot, leaves the buffer as it was and the cursor at -1. -/
theorem no_day_returns_zero (fs : FileSystem) (fuel : Nat) (Symbol : String)
    (Start End : Int) (TickMinutes NTicks : Int) (Ticks : Nat → T6) (g : Globals)
    (hcur : g.mCurrentTickNdx = -1)
    (hall : ∀ j : Nat, End - j * msPerDay ≥ Start - 10 * msPerDay →
      (fs (g.mCachePath ++ "\\" ++ Symbol ++ "\\t1")
        ((End - j * msPerDay) / msPerDay)).unavailable = true) :
    ∃ fr, BrokerHistory2 fs (fuel + 1) Symbol Start End TickMinutes NTicks Ticks g = .ok (0, fr) ∧
      fr.written = [] ∧ fr.buf = Ticks ∧ fr.g.mCurrentTickNdx = -1 := by
  have hr : reloadDay fs Symbol Start End { g with mPrevMinutes := INT_MAX } =
      .ok { g with mPrevMinutes := INT_MAX } := by
    unfold reloadDay
    simp only [hcur, if_true, show ((-1 : Int) < 0) from by decide]
    apply daySearch_none
    · unfold daySearchBudget; omega
    · unfold daySearchBudget
      simp only [msPerDay]
      omega
    · intro j hj
      by_cases h1 : g.mIs1stAfterBrokerLogin = true
      · simp only [h1, if_true] at hj ⊢
        exact hall j hj
      · simp only [h1, if_false, Bool.false_eq_true] at hj ⊢
        have e : End - msPerDay - j * msPerDay = End - ((j + 1 : Nat) : Int) * msPerDay := by
          push_cast; ring
        rw [e] at hj ⊢
        exact hall (j + 1) hj
  refine ⟨{ g := { g with mPrevMinutes := INT_MAX, mIs1stAfterBrokerLogin := false },
            tickCount := 0, Ticks := 0, buf := Ticks, written := [] }, ?_, rfl, rfl, hcur⟩
  unfold BrokerHistory2 historyLoop historyBody
  rw [hr]
  simp [historyTick, hcur]

/-- Witness of C13: `End` on a day without file, the day before holding two ticks. -/
theorem first_call_loads_latest_day_witness :
    ∃ loaded : Globals,
      reloadDay twoTickDay "EURUSD" 0 (25571 * msPerDay)
        { afterLogin with mPrevMinutes := INT_MAX } = .ok loaded ∧
      loaded.mSerialArrays =
        decodedDay (encodeRecord 86401000 5 7 ++ encodeRecord 86402000 6 8) ∧
      loaded.mCurrentTickNdx =
        (((encodeRecord 86401000 5 7 ++ encodeRecord 86402000 6 8).length / 24 : Nat) : Int) - 1 ∧
      historyBody twoTickDay "EURUSD" 0 (25571 * msPerDay) 0 3
        { g := { afterLogin with mPrevMinutes := INT_MAX }, tickCount := 0, Ticks := 0,
          buf := zeroTicks, written := [] } =
      historyTick 0 0 3
        { g := loaded, tickCount := 0, Ticks := 0, buf := zeroTicks, written := [] } :=
  first_call_loads_latest_day twoTickDay "EURUSD" 0 (25571 * msPerDay) 0 3 zeroTicks
    "C:\\AppData" (fun _ => true) "Broker" "Demo" freshGlobals afterLogin
    (encodeRecord 86401000 5 7 ++ encodeRecord 86402000 6 8) 1 rfl (by decide) (by decide)
    (by decide) (by decide)

/-- Witness of C14: no file at all, first call after login, bar mode. -/
theorem no_day_returns_zero_witness :
    ∃ fr, BrokerHistory2 noFiles 1 "EURUSD" 0 (25571 * msPerDay) 1 3 zeroTicks afterLogin =
        .ok (0, fr) ∧
      fr.written = [] ∧ fr.buf = zeroTicks ∧ fr.g.mCurrentTickNdx = -1 :=
  no_day_returns_zero noFiles 0 "EURUSD" 0 (25571 * msPerDay) 1 3 zeroTicks afterLogin
    (by decide) (fun _ _ => rfl)

/-- Claim C12, at its failing input: first call after login in raw tick mode with
`End` one second into day 25570, whose file holds ticks one and two seconds into the day.
The record emitted has the time of the tick two seconds into the day, later than `End`. -/
theorem first_record_later_than_End :
    ((BrokerHistory2 twoTickDay 2 "EURUSD" 0 (25570 * msPerDay + 1000) 0 1 zeroTicks
        afterLogin).records).map (List.map T6.time) = some [25570 * msPerDay + 2000] := by
  decide

/-- Claim C15, at its failing inputs: (1) raw tick mode, `NTicks = 3`, the day of `End`
holding one tick after `Start` and no earlier file: the call writes the record into slot 0,
runs out of data and returns 0; (2) the day of `End` with a file of no record and the day
before holding two ticks: the call returns 0 and has loaded nothing of the day before. -/
theorem zero_returned_with_record_written :
    (BrokerHistory2 lastDayOnly 3 "EURUSD" (25571 * msPerDay) (25571 * msPerDay + 5000) 0 3
        zeroTicks afterLogin).returned = some 0 ∧
    (BrokerHistory2 lastDayOnly 3 "EURUSD" (25571 * msPerDay) (25571 * msPerDay + 5000) 0 3
        zeroTicks afterLogin).slotsWritten = some [0] ∧
    (BrokerHistory2 emptyDayThenTicks 3 "EURUSD" 0 (25571 * msPerDay) 0 3 zeroTicks
        afterLogin).returned = some 0 ∧
    ((BrokerHistory2 emptyDayThenTicks 3 "EURUSD" 0 (25571 * msPerDay) 0 3 zeroTicks
        afterLogin).globals).map Globals.mSerialArrays =
      some { Tick2dt := [], Tick2Bid := [], Tick2Ask := [] } := by
  decide

/-- Claim C17, at its failing input: first call after login in raw tick mode, `NTicks = 4`,
`End` on day 25571 without file, day 25570 holding two ticks and day 25569 one tick. After
day 25570 is walked the search starts again at `End - 1` and loads day 25570 again: the
four records are tick 1, tick 0, tick 1, tick 0 of day 25570, and the arrays left hold day
25570, not the earlier day 25569. -/
theorem exhausted_day_loaded_again :
    ((BrokerHistory2 twoDays 4 "EURUSD" 0 (25571 * msPerDay) 0 4 zeroTicks
        afterLogin).records).map (List.map T6.time) =
      some [25569 * msPerDay + 86402000, 25569 * msPerDay + 86401000,
        25569 * msPerDay + 86402000, 25569 * msPerDay + 86401000] ∧
    ((BrokerHistory2 twoDays 4 "EURUSD" 0 (25571 * msPerDay) 0 4 zeroTicks
        afterLogin).globals).map (fun g => g.mSerialArrays.Tick2dt) =
      some [86401000, 86402000] := by
  decide

/-- Claim C18, at its failing input: raw tick mode on a tick with bid 9 and ask 7. The
spread written is `2 ^ 64 - 2` (times `tickSize`), the difference taken in `uint64_t`,
where the claim asks for the signed difference -2. -/
theorem raw_spread_wraps :
    ((BrokerHistory2 crossedTickDay 2 "EURUSD" 0 (25571 * msPerDay) 0 1 zeroTicks
        afterLogin).records).map (List.map T6.fVal) = some [18446744073709551614] := by
  decide

/-- Claim C20: from the state `BrokerLogin` establishes, through any number of calls of
`BrokerHistory2` that return, with day files that all hold whole 24-byte records: after
any number of passes of the loop of a further call the cursor is at least -1 and below the
length of each of the three arrays, and no pass reads or writes an array outside its
bounds (the only fault a call can end in is the division by a zero bucket divisor). -/
theorem cursor_in_bounds (fs : FileSystem) (hfs : WholeRecords fs) (g : Globals)
    (hg : Session fs g) (Symbol : String) (Start End TickMinutes NTicks : Int)
    (Ticks : Nat → T6) (n : Nat) :
    PassOK (historyPasses fs Symbol Start End TickMinutes NTicks n
      { g := { g with mPrevMinutes := INT_MAX }, tickCount := 0, Ticks := 0, buf := Ticks,
        written := [] }) ∧
    ∀ (fuel : Nat) (f : Fault),
      BrokerHistory2 fs fuel Symbol Start End TickMinutes NTicks Ticks g = .fault f →
      f = .divideByZero := by
  have hc : CursorOK ({ g with mPrevMinutes := INT_MAX } : Globals) := by
    simpa [CursorOK] using Session.cursorOK fs hfs g hg
  refine ⟨historyPasses_cursor fs Symbol Start End TickMinutes NTicks hfs n _ hc, ?_⟩
  intro fuel f h
  unfold BrokerHistory2 at h
  exact historyLoop_fault fs Symbol Start End TickMinutes NTicks hfs fuel _ f hc h

/-- Witness of C20: the first call after login on a day of two ticks, after two passes. -/
theorem cursor_in_bounds_witness :
    PassOK (historyPasses twoTickDay "EURUSD" 0 (25571 * msPerDay) 0 3 2
      { g := { afterLogin with mPrevMinutes := INT_MAX }, tickCount := 0, Ticks := 0,
        buf := zeroTicks, written := [] }) ∧
    ∀ (fuel : Nat) (f : Fault),
      BrokerHistory2 twoTickDay fuel "EURUSD" 0 (25571 * msPerDay) 0 3 zeroTicks afterLogin =
        .fault f → f = .divideByZero :=
  cursor_in_bounds twoTickDay twoTickDay_whole afterLogin
    (Session.login "C:\\AppData" (fun _ => true) "Broker" "Demo" freshGlobals)
    "EURUSD" 0 (25571 * msPerDay) 0 3 zeroTicks 2

/-- Claim C19: in bar mode, let the tick under the cursor `c` of the loaded day D open a
new bar on which no bound fires, let all the ticks of D from `c` down to 0 lie in its
bucket, let the reload that follows the exhaustion of D (it searches from `End - 1` down,
skipping `skip` days without usable file) load the day D' of `data`, and let the `k`
latest ticks of D' lie in the same bucket. Then the `c + 1 + k` passes go on within the
call and build one bar in one slot (the slot after the current one, or the current one for
the first bar of the call): its time and close are those of tick `c` of D, its open is the
ask of the oldest of the `k` ticks of D', its high and low are the largest and the
smallest ask over both parts, and its volume is `c + 1 + k`. -/
theorem bar_spans_day_boundary (fs : FileSystem) (Symbol : String) (Start End : Int)
    (TickMinutes NTicks : Int) (s : Frame) (c : Nat) (data : List Nat) (skip k : Nat)
    (hmode : TickMinutes ≠ 0) (hdiv : bucketDivisor TickMinutes ≠ 0)
    (hcur : s.g.mCurrentTickNdx = c)
    (h1 : c < s.g.mSerialArrays.Tick2dt.length) (h2 : c < s.g.mSerialArrays.Tick2Ask.length)
    (h3 : c < s.g.mSerialArrays.Tick2Bid.length)
    (hnew : s.g.bucketAt TickMinutes c < s.g.mPrevMinutes)
    (hbound : ¬ ((if INT_MAX ≠ s.g.mPrevMinutes then s.tickCount + 1 else s.tickCount) ≥ NTicks ∨
      s.g.dateAt c ≤ startDate Start))
    (hD : ∀ j, j ≤ c → s.g.bucketAt TickMinutes j = s.g.bucketAt TickMinutes c)
    (hrange : End - msPerDay - skip * msPerDay ≥ Start - 10 * msPerDay)
    (hskip : ∀ j : Nat, j < skip → (fs (s.g.mCachePath ++ "\\" ++ Symbol ++ "\\t1")
      ((End - msPerDay - j * msPerDay) / msPerDay)).unavailable = true)
    (hfile : fs (s.g.mCachePath ++ "\\" ++ Symbol ++ "\\t1")
      ((End - msPerDay - skip * msPerDay) / msPerDay) = .inflated data)
    (hdata : data.length % 24 = 0)
    (hk : 1 ≤ k) (hkn : k ≤ data.length / 24)
    (hD' : ∀ j, j < k →
      epocMinutesOf TickMinutes (rawTimestamp data (data.length / 24 - 1 - j)) =
        s.g.bucketAt TickMinutes c) :
    ∃ s2, historyPasses fs Symbol Start End TickMinutes NTicks (c + 1 + k) s = .ok (.next s2) ∧
      s2.Ticks = (if INT_MAX ≠ s.g.mPrevMinutes then s.Ticks + 1 else s.Ticks) ∧
      s2.g.mSerialArrays = decodedDay data ∧
      s2.g.mCurrentTickNdx = ((data.length / 24 : Nat) : Int) - 1 - k ∧
      (s2.buf s2.Ticks).time = s.g.timeAt c ∧
      (s2.buf s2.Ticks).fClose = s.g.askAt c ∧
      (s2.buf s2.Ticks).fOpen = fillAsk data (data.length / 24 - k) ∧
      (∀ j, j ≤ c → s.g.askAt j ≤ (s2.buf s2.Ticks).fHigh) ∧
      (∀ j, j < k → (fillAsk data (data.length / 24 - 1 - j) : Int) ≤ (s2.buf s2.Ticks).fHigh) ∧
      ((∃ j, j ≤ c ∧ (s2.buf s2.Ticks).fHigh = s.g.askAt j) ∨
        ∃ j, j < k ∧ (s2.buf s2.Ticks).fHigh = fillAsk data (data.length / 24 - 1 - j)) ∧
      (∀ j, j ≤ c → (s2.buf s2.Ticks).fLow ≤ s.g.askAt j) ∧
      (∀ j, j < k → (s2.buf s2.Ticks).fLow ≤ (fillAsk data (data.length / 24 - 1 - j) : Int)) ∧
      ((∃ j, j ≤ c ∧ (s2.buf s2.Ticks).fLow = s.g.askAt j) ∨
        ∃ j, j < k ∧ (s2.buf s2.Ticks).fLow = fillAsk data (data.length / 24 - 1 - j)) ∧
      (s2.buf s2.Ticks).fVol = (c : Int) + 1 + k := by
  obtain ⟨s1, hp, hA, hC, hP, hV, hT, htime, hclose, _, hhi, hhiw, hlo, hlow, _⟩ :=
    bar_run fs Symbol Start End TickMinutes NTicks s c hmode hdiv hcur h1 h2 h3 hnew hbound
      (c + 1) (by omega) (by omega) (fun j hj => hD (c - j) (by omega))
  have hses := historyPasses_session fs Symbol Start End TickMinutes NTicks c s s1 hp
  have hc1 : s1.g.mCurrentTickNdx = -1 := by rw [hC]; push_cast; ring
  have hload : reloadDay fs Symbol Start End s1.g =
      .ok { s1.g with mSerialArrays := decodedDay data
                      mCurrentTickNdx := ((data.length / 24 : Nat) : Int) - 1 } := by
    have hb : skip < daySearchBudget Start (End - msPerDay) := by
      unfold daySearchBudget
      have hk : (skip : Int) ≤ (End - msPerDay - (Start - 10 * msPerDay)) / msPerDay := by
        simp only [msPerDay] at hrange ⊢
        omega
      omega
    have := daySearch_skip fs Symbol Start data hdata skip (daySearchBudget Start (End - msPerDay))
      (End - msPerDay) s1.g hb hrange (by rw [hses.1]; exact hskip) (by rw [hses.1]; exact hfile)
    simpa [reloadDay, hc1, hses.2] using this
  have hlen := decodedDay_length data
  have hn : 1 ≤ data.length / 24 := by omega
  obtain ⟨s2, hp2, hA2, hC2, hP2, hV2, hT2, _, htime2, hclose2, hopen2, hh0, hhi2, hhiw2, hl0,
      hlo2, hlow2, hvol2⟩ :=
    bar_continue fs Symbol Start End TickMinutes NTicks s1
      { s1.g with mSerialArrays := decodedDay data
                  mCurrentTickNdx := ((data.length / 24 : Nat) : Int) - 1 }
      (data.length / 24 - 1) hmode hdiv hload (by simp only; omega)
      (by simp only; omega) (by simp only; omega) (by simp only; omega) k hk (by omega)
      (by
        intro j hj
        have hg := (decodedDay_getD data (data.length / 24 - 1 - j) (by omega)).1
        simp only [Globals.bucketAt, hg, hP]
        exact hD' j hj)
  have hask : ∀ i, i < data.length / 24 →
      ({ s1.g with mSerialArrays := decodedDay data
                   mCurrentTickNdx := ((data.length / 24 : Nat) : Int) - 1 } : Globals).askAt i =
        fillAsk data i := by
    intro i hi
    simp only [Globals.askAt, (decodedDay_getD data i hi).2]
  have hTT : s2.Ticks = s1.Ticks := hT2
  rw [hTT] at htime2 hclose2 hopen2 hh0 hhi2 hhiw2 hl0 hlo2 hlow2 hvol2
  refine ⟨s2, ?_, hTT.trans hT, hA2, ?_, by rw [hTT]; exact htime2.trans htime,
    by rw [hTT]; exact hclose2.trans hclose, ?_, ?_, ?_, ?_, ?_, ?_,
    ?_, ?_⟩
  · rw [historyPasses_add fs Symbol Start End TickMinutes NTicks k (c + 1) s s1 hp]
    exact hp2
  · rw [hC2, Nat.cast_sub hn, Nat.cast_one]
  all_goals rw [hTT]
  · rw [hopen2, hask _ (by omega)]
    congr 2
    omega
  · intro j hj
    have := hhi (c - j) (by omega)
    rw [show c - (c - j) = j by omega] at this
    exact le_trans this hh0
  · intro j hj
    have := hhi2 j hj
    rwa [hask _ (by omega)] at this
  · rcases hhiw2 with hw | ⟨j, hj, hw⟩
    · obtain ⟨i, hi, hw1⟩ := hhiw
      exact Or.inl ⟨c - i, by omega, hw.trans hw1⟩
    · exact Or.inr ⟨j, hj, by rw [hw, hask _ (by omega)]⟩
  · intro j hj
    have := hlo (c - j) (by omega)
    rw [show c - (c - j) = j by omega] at this
    exact le_trans hl0 this
  · intro j hj
    have := hlo2 j hj
    rwa [hask _ (by omega)] at this
  · rcases hlow2 with hw | ⟨j, hj, hw⟩
    · obtain ⟨i, hi, hw1⟩ := hlow
      exact Or.inl ⟨c - i, by omega, hw.trans hw1⟩
    · exact Or.inr ⟨j, hj, by rw [hw, hask _ (by omega)]⟩
  · rw [hvol2, hV]; push_cast; ring

/-- Witness of C19: buckets of 1000 minutes on `boundaryDays`; the bar of bucket 4 takes
tick 0 of day 25572 and the two latest ticks of day 25571. -/
theorem bar_spans_day_boundary_witness :
    ∃ s2, historyPasses boundaryDays "EURUSD" 0 (25572 * msPerDay + 5000) 1000 3 (0 + 1 + 2)
        boundaryFrame = .ok (.next s2) ∧
      s2.Ticks = (if INT_MAX ≠ boundaryFrame.g.mPrevMinutes then boundaryFrame.Ticks + 1
        else boundaryFrame.Ticks) ∧
      s2.g.mSerialArrays = decodedDay boundaryEarlierDay ∧
      s2.g.mCurrentTickNdx = ((boundaryEarlierDay.length / 24 : Nat) : Int) - 1 - (2 : Nat) ∧
      (s2.buf s2.Ticks).time = boundaryFrame.g.timeAt 0 ∧
      (s2.buf s2.Ticks).fClose = boundaryFrame.g.askAt 0 ∧
      (s2.buf s2.Ticks).fOpen = fillAsk boundaryEarlierDay (boundaryEarlierDay.length / 24 - 2) ∧
      (∀ j, j ≤ 0 → boundaryFrame.g.askAt j ≤ (s2.buf s2.Ticks).fHigh) ∧
      (∀ j, j < 2 →
        (fillAsk boundaryEarlierDay (boundaryEarlierDay.length / 24 - 1 - j) : Int) ≤
          (s2.buf s2.Ticks).fHigh) ∧
      ((∃ j, j ≤ 0 ∧ (s2.buf s2.Ticks).fHigh = boundaryFrame.g.askAt j) ∨
        ∃ j, j < 2 ∧ (s2.buf s2.Ticks).fHigh =
          fillAsk boundaryEarlierDay (boundaryEarlierDay.length / 24 - 1 - j)) ∧
      (∀ j, j ≤ 0 → (s2.buf s2.Ticks).fLow ≤ boundaryFrame.g.askAt j) ∧
      (∀ j, j < 2 → (s2.buf s2.Ticks).fLow ≤
        (fillAsk boundaryEarlierDay (boundaryEarlierDay.length / 24 - 1 - j) : Int)) ∧
      ((∃ j, j ≤ 0 ∧ (s2.buf s2.Ticks).fLow = boundaryFrame.g.askAt j) ∨
        ∃ j, j < 2 ∧ (s2.buf s2.Ticks).fLow =
          fillAsk boundaryEarlierDay (boundaryEarlierDay.length / 24 - 1 - j)) ∧
      (s2.buf s2.Ticks).fVol = ((0 : Nat) : Int) + 1 + (2 : Nat) :=
  bar_spans_day_boundary boundaryDays "EURUSD" 0 (25572 * msPerDay + 5000) 1000 3
    boundaryFrame 0 boundaryEarlierDay
    0 2 (by decide) (by decide) rfl (by decide) (by decide) (by decide) (by decide) (by decide)
    (by decide) (by decide) (fun j hj => absurd hj (Nat.not_lt_zero j)) (by decide) (by decide)
    (by decide) (by decide) (by decide)

/-- Witness of C16: a file that does not inflate, with one tick stored from before. -/
theorem decode_all_or_nothing_witness :
    (DayFile.corrupt.unavailable = true → ∃ err, err ≠ "" ∧
      ReadCTraderDayV2 .corrupt { Tick2dt := [1000], Tick2Bid := [1], Tick2Ask := [2] } =
        .ok (err, { Tick2dt := [1000], Tick2Bid := [1], Tick2Ask := [2] })) ∧
    (∀ err m1,
      ReadCTraderDayV2 .corrupt { Tick2dt := [1000], Tick2Bid := [1], Tick2Ask := [2] } =
        .ok (err, m1) →
      (err ≠ "" → m1 = { Tick2dt := [1000], Tick2Bid := [1], Tick2Ask := [2] }) ∧
      (err = "" → m1.Tick2dt.length = m1.Tick2Bid.length ∧
        m1.Tick2Bid.length = m1.Tick2Ask.length)) :=
  decode_all_or_nothing .corrupt { Tick2dt := [1000], Tick2Bid := [1], Tick2Ask := [2] }

end CTraderPlugin
